import Mathlib

/-!
Shallow embedding of the media classification and weekly-grouping engine of
`src/file_processor.py` (class `FileProcessor`), together with theorems about
the claims of the specification.

Modelling conventions:
* Python strings are `String` (lists of characters); the relevant filenames are
  ASCII, so `str.lower` / `str.upper` / `str.title` are embedded by ASCII case
  maps (`lowerChar`, `upperChar`, `titleWord`).
* `datetime` values that matter only as dates-at-midnight are embedded as a
  proleptic-Gregorian ordinal (`DateTime.ord`, the value of Python
  `date.toordinal`, day 1 = 0001-01-01, a Monday) plus a time-of-day component
  `DateTime.tod` (seconds within the day); `datetime.weekday()` is
  `(ord + 6) % 7` with Monday = 0.
* `pathlib.Path` is embedded as `PyPath`: an absolute-flag plus the list of
  path components; `/`, `name`, `stem`, `relative_to` and `is_absolute` are
  embedded on that representation.
* The filesystem seen by one run is a `Fs` snapshot: the directory listing
  (`none` when `iterdir` itself raises `OSError`), one entry per file with the
  outcomes of its `getmtime` and `stat` calls (`none` = the call raises), and
  the existence flags of the two placeholder assets.
* Exceptions are embedded as `Option`/abort flow: a raising call is an entry
  field holding `none`, and the `try/except OSError` that wraps the whole scan
  loop is the early return in `mkScan`.
-/

/-- ASCII lower-casing of one character, the effect of Python `str.lower` on
the ASCII range (all filenames and literals in the engine are ASCII). -/
def lowerChar : Char → Char
  | 'A' => 'a' | 'B' => 'b' | 'C' => 'c' | 'D' => 'd' | 'E' => 'e' | 'F' => 'f'
  | 'G' => 'g' | 'H' => 'h' | 'I' => 'i' | 'J' => 'j' | 'K' => 'k' | 'L' => 'l'
  | 'M' => 'm' | 'N' => 'n' | 'O' => 'o' | 'P' => 'p' | 'Q' => 'q' | 'R' => 'r'
  | 'S' => 's' | 'T' => 't' | 'U' => 'u' | 'V' => 'v' | 'W' => 'w' | 'X' => 'x'
  | 'Y' => 'y' | 'Z' => 'z'
  | c => c

/-- ASCII upper-casing of one character, the effect of Python `str.upper` on
the ASCII range. -/
def upperChar : Char → Char
  | 'a' => 'A' | 'b' => 'B' | 'c' => 'C' | 'd' => 'D' | 'e' => 'E' | 'f' => 'F'
  | 'g' => 'G' | 'h' => 'H' | 'i' => 'I' | 'j' => 'J' | 'k' => 'K' | 'l' => 'L'
  | 'm' => 'M' | 'n' => 'N' | 'o' => 'O' | 'p' => 'P' | 'q' => 'Q' | 'r' => 'R'
  | 's' => 'S' | 't' => 'T' | 'u' => 'U' | 'v' => 'V' | 'w' => 'W' | 'x' => 'X'
  | 'y' => 'Y' | 'z' => 'Z'
  | c => c

/-- The regex character class `[A-Za-z]` of `_parse_day_from_filename`. -/
def isAsciiAlpha (c : Char) : Bool :=
  ('A' ≤ c && c ≤ 'Z') || ('a' ≤ c && c ≤ 'z')

/-- Python `str.lower` on a character list. -/
def lowerStr (s : List Char) : List Char := s.map lowerChar

/-- Python `str.startswith`: does `s` begin with `p`? -/
def strBegins : List Char → List Char → Bool
  | _, [] => true
  | [], _ :: _ => false
  | c :: s, p :: ps => c == p && strBegins s ps

/-- Python `str.endswith`: does `s` end with `p`? -/
def strFinishes (s p : List Char) : Bool := strBegins s.reverse p.reverse

/-- Python `str.title` on a single alphabetic word (the only shape it is
applied to in `_parse_day_from_filename`): first character upper-cased, the
rest lower-cased. -/
def titleWord (s : List Char) : String :=
  match s with
  | [] => ""
  | c :: cs => String.mk (upperChar c :: cs.map lowerChar)

/-- `FileProcessor.DAYS_ORDER`. -/
def DAYS_ORDER : List String :=
  ["Monday", "Tuesday", "Wednesday", "Thursday", "Friday", "Saturday", "Sunday"]

/-- `FileProcessor._determine_file_type`: classify a filename from the name
alone (`filename.lower()` then prefix/suffix tests, in the source's
`if/elif` order). -/
def determineFileType (filename : String) : Option String :=
  let n := lowerStr filename.data
  if strBegins n "auroracam".data && strFinishes n ".mp4".data then some "aurora"
  else if strBegins n "cloudcam".data && strFinishes n ".mp4".data then some "cloud"
  else if strBegins n "spaceweather".data && strFinishes n ".gif".data then some "spaceweather"
  else if n == "snapshot.jpg".data then some "snapshot"
  else none

/-- One attempt of the leading alternation of the first regex of
`_parse_day_from_filename` at the current position: the (lower-cased)
alternative `p`, then a literal `_`, then the greedy capture `([A-Za-z]+)`,
then a literal `.`, then `mp4` or `gif` (all case-insensitive, `re.search`
does not anchor the match at the end of the string). Returns the captured
group. -/
def tryAlt (s : List Char) (p : List Char) : Option (List Char) :=
  if strBegins (lowerStr s) p then
    match s.drop p.length with
    | '_' :: rest =>
      let run := rest.takeWhile (fun c => isAsciiAlpha c)
      if run.isEmpty then none
      else
        match rest.drop run.length with
        | '.' :: ext =>
          if strBegins (lowerStr ext) "mp4".data || strBegins (lowerStr ext) "gif".data then
            some run
          else none
        | _ => none
    | _ => none
  else none

/-- The alternation `(?:AuroraCam|CloudCam|SpaceWeather)` tried in order at
one position (at most one alternative can begin at a given position since
their first letters differ). -/
def matchHere (s : List Char) : Option (List Char) :=
  match tryAlt s "auroracam".data with
  | some r => some r
  | none =>
    match tryAlt s "cloudcam".data with
    | some r => some r
    | none => tryAlt s "spaceweather".data

/-- `re.search` with the first pattern
`(?:AuroraCam|CloudCam|SpaceWeather)_([A-Za-z]+)\.(?:mp4|gif)` of
`_parse_day_from_filename`: leftmost matching position wins; on failure the
engine advances the start position by one character. -/
def searchDayPattern : List Char → Option (List Char)
  | [] => none
  | c :: rest =>
    match matchHere (c :: rest) with
    | some r => some r
    | none => searchDayPattern rest

/-- `re.search` with the second pattern `([A-Za-z]+)$` of
`_parse_day_from_filename`, applied to the full filename: the maximal
trailing run of ASCII letters, nonempty iff the last character is a letter. -/
def trailRun (s : List Char) : List Char :=
  (s.reverse.takeWhile (fun c => isAsciiAlpha c)).reverse

/-- The first iteration of the pattern loop of `_parse_day_from_filename`:
search with the first pattern, title-case the captured group, accept it only
if it is one of the seven canonical day names. -/
def patternCandidate (s : List Char) : Option String :=
  match searchDayPattern s with
  | some run =>
    let day := titleWord run
    if DAYS_ORDER.contains day then some day else none
  | none => none

/-- The second iteration of the pattern loop of `_parse_day_from_filename`:
the trailing-letter-run pattern `([A-Za-z]+)$` on the full filename, then the
same title-case and canonical-name acceptance test. -/
def fallbackCandidate (s : List Char) : Option String :=
  let r := trailRun s
  if r.isEmpty then none
  else
    let day := titleWord r
    if DAYS_ORDER.contains day then some day else none

/-- `FileProcessor._parse_day_from_filename`: try the two patterns in order;
a pattern whose match does not produce a canonical day name falls through to
the next one. -/
def parseDayFromFilename (filename : String) : Option String :=
  match patternCandidate filename.data with
  | some d => some d
  | none => fallbackCandidate filename.data

/-- A Python `datetime`: the proleptic-Gregorian ordinal of its date (the
value of `date.toordinal`) and the time of day in seconds.
`replace(hour=0, minute=0, second=0, microsecond=0)` sets `tod` to `0`. -/
structure DateTime where
  ord : Int
  tod : Int
deriving DecidableEq, Repr

/-- Python `datetime.weekday()`: Monday = 0 .. Sunday = 6. Ordinal 1 is
0001-01-01, a Monday. -/
def weekdayOf (o : Int) : Int := (o + 6) % 7

/-- `FileProcessor._get_date_for_day` with an explicit reference instant (in
the source the default reference is `datetime.now(tz)` in the configured
timezone; it is passed in explicitly here): index of the day name in
`DAYS_ORDER`, `days_back = (reference_index - day_index + 7) % 7`, result is
the reference truncated to midnight minus `days_back` days. -/
def getDateForDay (day_name : String) (reference_date : DateTime) : DateTime :=
  let day_index : Int := (DAYS_ORDER.indexOf day_name : Nat)
  let reference_index : Int := weekdayOf reference_date.ord
  let days_back : Int := (reference_index - day_index + 7) % 7
  DateTime.mk (reference_date.ord - days_back) 0

/-- `datetime._is_leap`. -/
def isLeap (y : Nat) : Bool := y % 4 == 0 && (y % 100 != 0 || y % 400 == 0)

/-- `datetime._DAYS_IN_MONTH` (without the leading sentinel). -/
def DAYS_IN_MONTH : List Nat := [31, 28, 31, 30, 31, 30, 31, 31, 30, 31, 30, 31]

/-- `datetime._days_before_year`. -/
def daysBeforeYear (y : Nat) : Nat :=
  (y - 1) * 365 + (y - 1) / 4 - (y - 1) / 100 + (y - 1) / 400

/-- `datetime._days_before_month`. -/
def daysBeforeMonth (y m : Nat) : Nat :=
  (DAYS_IN_MONTH.take (m - 1)).foldl Nat.add 0 + (if 2 < m && isLeap y then 1 else 0)

/-- Python `date(y, m, d).toordinal()`. -/
def toordinal (y m d : Nat) : Int :=
  ((daysBeforeYear y + daysBeforeMonth y m + d : Nat) : Int)

/-- A `pathlib.Path`: an absolute flag and the list of components. -/
structure PyPath where
  absFlag : Bool
  comps : List String
deriving DecidableEq, Repr

/-- The `/` operator of `pathlib.Path` with a single-component operand. -/
def PyPath.child (p : PyPath) (s : String) : PyPath := PyPath.mk p.absFlag (p.comps ++ [s])

/-- `pathlib.Path.name`: the final component. -/
def PyPath.name (p : PyPath) : String := p.comps.getLast?.getD ""

/-- `pathlib.Path.relative_to`: `none` embeds the `ValueError` raised when
the other path is not a prefix (the two roots must also agree). -/
def PyPath.relative_to (p q : PyPath) : Option PyPath :=
  if (p.absFlag == q.absFlag) && q.comps.isPrefixOf p.comps then
    some (PyPath.mk false (p.comps.drop q.comps.length))
  else none

/-- `pathlib.Path.stem` of a final component: the component without its last
suffix (the suffix starts at the last dot, provided that dot is neither the
first nor the last character). -/
def stemOf (s : String) : String :=
  let cs := s.data
  let post := cs.reverse.takeWhile (fun c => c != '.')
  if post.length == cs.length then s
  else
    let i := cs.length - post.length - 1
    if 0 < i && i < cs.length - 1 then String.mk (cs.take i) else s

/-- One directory entry as seen by `_scan_files`, with the outcomes of the
fallible calls made on it: `mtime = none` embeds `os.path.getmtime` (or the
`fromtimestamp` conversion) raising inside `_get_file_date`, and
`size = none` embeds `file_path.stat()` raising `OSError`. -/
structure Entry where
  name : String
  isFileFlag : Bool
  mtime : Option Int
  size : Option Nat
deriving DecidableEq, Repr

/-- The filesystem and clock snapshot one run operates on: the directory
listing (`none` embeds `iterdir` raising `OSError`), the existence of the two
placeholder assets, the current UTC instant used as the `_get_file_date`
fallback, and `datetime.now(tz)` in the configured timezone (the default
reference of `_get_date_for_day`). -/
structure Fs where
  listing : Option (List Entry)
  placeholderDayOnDisk : Bool
  placeholderNightOnDisk : Bool
  nowUtc : Int
  nowRef : DateTime
deriving DecidableEq, Repr

/-- The `FileProcessor` instance state: the target directory passed to the
constructor and the components of the project root (`Path(__file__)
.parent.parent`, an absolute path). -/
structure FileProcessor where
  target_directory : PyPath
  projectRootComps : List String
deriving DecidableEq, Repr

/-- `self.project_root`. -/
def FileProcessor.project_root (fp : FileProcessor) : PyPath :=
  PyPath.mk true fp.projectRootComps

/-- `self.placeholder_day = self.project_root / "static" / "images" / "placeholder-day.jpg"`. -/
def FileProcessor.placeholder_day (fp : FileProcessor) : PyPath :=
  ((fp.project_root.child "static").child "images").child "placeholder-day.jpg"

/-- `self.placeholder_night = self.project_root / "static" / "images" / "placeholder-night.jpg"`. -/
def FileProcessor.placeholder_night (fp : FileProcessor) : PyPath :=
  ((fp.project_root.child "static").child "images").child "placeholder-night.jpg"

/-- `MediaFile` of `file_processor.py`. `file_date` is the instant the
modification timestamp was converted to (an opaque payload downstream). -/
structure MediaFile where
  path : PyPath
  type : String
  day : Option String
  file_date : Int
  size : Nat
  thumbnail_path : Option PyPath
deriving DecidableEq, Repr

/-- `FileProcessor._get_file_date`: the file modification instant, or the
current UTC instant when the lookup raises (the except branch). -/
def getFileDate (fs : Fs) (e : Entry) : Int :=
  match e.mtime with
  | some m => m
  | none => fs.nowUtc

/-- `FileProcessor._find_thumbnail_file`: look for `<stem>.thumbnail.jpg`
next to the video in the target directory; the existence and regular-file
checks are read off the same directory snapshot. -/
def findThumbnailFile (fp : FileProcessor) (entries : List Entry) (video_file : PyPath) :
    Option PyPath :=
  let thumbnail_name := stemOf video_file.name ++ ".thumbnail.jpg"
  let thumbnail_path := fp.target_directory.child thumbnail_name
  if entries.any (fun e => e.name == thumbnail_name && e.isFileFlag) then some thumbnail_path
  else none

/-- `FileProcessor._get_placeholder_path`: night placeholder for aurora, day
placeholder for cloud, each only if it exists on disk. -/
def getPlaceholderPath (fp : FileProcessor) (fs : Fs) (media_type : String) : Option PyPath :=
  if media_type == "aurora" then
    (if fs.placeholderNightOnDisk then some fp.placeholder_night else none)
  else if media_type == "cloud" then
    (if fs.placeholderDayOnDisk then some fp.placeholder_day else none)
  else none

/-- The `MediaFile` the loop body of `_scan_files` builds for one classified
entry: modification instant (with fallback), weekday (never for snapshots),
size, and for videos the sibling thumbnail or placeholder. -/
def mkMediaFile (fp : FileProcessor) (fs : Fs) (entries : List Entry) (e : Entry)
    (file_type : String) (size : Nat) : MediaFile :=
  let file_date := getFileDate fs e
  let day := if file_type == "snapshot" then none else parseDayFromFilename e.name
  let file_path := fp.target_directory.child e.name
  let thumbnail_path :=
    if file_type == "aurora" || file_type == "cloud" then
      match findThumbnailFile fp entries file_path with
      | some t => some t
      | none => getPlaceholderPath fp fs file_type
    else none
  MediaFile.mk file_path file_type day file_date size thumbnail_path

/-- The loop body of `FileProcessor._scan_files` over the remaining entries.
The whole loop sits inside one `try/except OSError`, so a raising
`file_path.stat()` (`e.size = none`, reached only for classified entries)
aborts the loop: the files collected so far are returned and the remaining
entries are never visited. `entries` is the full directory snapshot, used for
the sibling-thumbnail existence checks. -/
def mkScan (fp : FileProcessor) (fs : Fs) (entries : List Entry) : List Entry → List MediaFile
  | [] => []
  | e :: rest =>
    if !e.isFileFlag then mkScan fp fs entries rest
    else
      match determineFileType e.name with
      | none => mkScan fp fs entries rest
      | some file_type =>
        match e.size with
        | none => []
        | some size =>
          mkMediaFile fp fs entries e file_type size :: mkScan fp fs entries rest

/-- `FileProcessor._scan_files`: when `iterdir` itself raises, the except
branch returns the (empty) accumulated list. -/
def scanFiles (fp : FileProcessor) (fs : Fs) : List MediaFile :=
  match fs.listing with
  | none => []
  | some entries => mkScan fp fs entries entries

/-- `DayMedia` of `file_processor.py`. -/
structure DayMedia where
  date : DateTime
  day_name : String
  aurora_video : Option MediaFile
  cloud_video : Option MediaFile
  spaceweather_image : Option MediaFile
deriving DecidableEq, Repr

/-- The slot assignment of the second loop of `_group_files_by_day`: a file
overwrites the slot of its type. -/
def setSlot (f : MediaFile) (dm : DayMedia) : DayMedia :=
  if f.type == "aurora" then
    DayMedia.mk dm.date dm.day_name (some f) dm.cloud_video dm.spaceweather_image
  else if f.type == "cloud" then
    DayMedia.mk dm.date dm.day_name dm.aurora_video (some f) dm.spaceweather_image
  else if f.type == "spaceweather" then
    DayMedia.mk dm.date dm.day_name dm.aurora_video dm.cloud_video (some f)
  else dm

/-- In-place mutation of the dict value at key `d` (keys are unique, and
updating preserves the insertion order of a Python dict). -/
def updateDay (l : List (String × DayMedia)) (d : String) (f : MediaFile) :
    List (String × DayMedia) :=
  l.map (fun kv => if kv.1 == d then (kv.1, setSlot f kv.2) else kv)

/-- One iteration of the assignment loop of `_group_files_by_day`: a snapshot
replaces `current_snapshot`; otherwise a file with a day that is a dict key
is upserted into that day's slot for its type. -/
def assignStep (acc : List (String × DayMedia) × Option MediaFile) (f : MediaFile) :
    List (String × DayMedia) × Option MediaFile :=
  if f.type == "snapshot" then (acc.1, some f)
  else
    match f.day with
    | some d => if acc.1.any (fun kv => kv.1 == d) then (updateDay acc.1 d f, acc.2) else acc
    | none => acc

/-- `FileProcessor._group_files_by_day`. The Python dict (insertion-ordered,
initialized by walking `DAYS_ORDER` and keeping the days some file carries)
is an association list; the `'_snapshot'` sentinel key the source stores the
snapshot under after the loop is the second component of the result, which
`process_files` pops right away. -/
def groupFilesByDay (files : List MediaFile) (reference : DateTime) :
    List (String × DayMedia) × Option MediaFile :=
  let init := (DAYS_ORDER.filter (fun d => files.any (fun f => f.day == some d))).map
    (fun d => (d, DayMedia.mk (getDateForDay d reference) d none none none))
  files.foldl assignStep (init, none)

/-- Chronological order on `datetime` values (lexicographic on date and time
of day), the order `list.sort(key=..., reverse=True)` sorts by. -/
def dtLtB (a b : DateTime) : Bool := a.ord < b.ord || (a.ord == b.ord && a.tod < b.tod)

/-- Insert one day into a list kept sorted by date, most recent first. On the
pairwise-distinct dates produced by `_group_files_by_day` this insertion sort
returns exactly what CPython's stable sort with `reverse=True` returns. -/
def insertByDateDesc (x : String × DayMedia) :
    List (String × DayMedia) → List (String × DayMedia)
  | [] => [x]
  | y :: ys => if dtLtB y.2.date x.2.date then x :: y :: ys else y :: insertByDateDesc x ys

/-- `FileProcessor._sort_days_by_recency`: drop the `'_snapshot'` key (absent
here by construction, see `groupFilesByDay`), sort the items by semantic date
descending, return the values. -/
def sortDaysByRecency (days_media : List (String × DayMedia)) : List DayMedia :=
  let day_items := days_media.filter (fun kv => kv.1 != "_snapshot")
  (day_items.foldl (fun acc x => insertByDateDesc x acc) []).map (fun kv => kv.2)

/-- `FileProcessor._get_relative_path`: relative to the target directory,
falling back to the bare filename on `ValueError`. -/
def getRelativePath (fp : FileProcessor) (file_path : PyPath) : PyPath :=
  match file_path.relative_to fp.target_directory with
  | some r => r
  | none => PyPath.mk false [file_path.name]

/-- The thumbnail rewriting of `process_files`: an absolute thumbnail path is
a placeholder candidate and is re-rooted at the project root (bare filename
on `ValueError`); a relative one is passed to `_get_relative_path`. -/
def normalizeThumb (fp : FileProcessor) (t : PyPath) : PyPath :=
  if t.absFlag then
    match t.relative_to fp.project_root with
    | some r => r
    | none => PyPath.mk false [t.name]
  else getRelativePath fp t

/-- Apply the thumbnail rewriting to one optional slot. -/
def normalizeMedia (fp : FileProcessor) (m : Option MediaFile) : Option MediaFile :=
  match m with
  | none => none
  | some f =>
    match f.thumbnail_path with
    | none => some f
    | some t =>
      some (MediaFile.mk f.path f.type f.day f.file_date f.size (some (normalizeThumb fp t)))

/-- Apply the thumbnail rewriting to the three slots of one day. -/
def normalizeDay (fp : FileProcessor) (dm : DayMedia) : DayMedia :=
  DayMedia.mk dm.date dm.day_name (normalizeMedia fp dm.aurora_video)
    (normalizeMedia fp dm.cloud_video) (normalizeMedia fp dm.spaceweather_image)

/-- `FileProcessor.process_files`: scan, return `([], None)` when nothing was
found, group, pop the snapshot, sort by recency, rewrite thumbnail paths for
the template. -/
def processFiles (fp : FileProcessor) (fs : Fs) : List DayMedia × Option MediaFile :=
  let media_files := scanFiles fp fs
  if media_files.isEmpty then ([], none)
  else
    let gs := groupFilesByDay media_files fs.nowRef
    let sorted_days := sortDaysByRecency gs.1
    (sorted_days.map (normalizeDay fp), gs.2)

/-! Concrete fixtures used by witnesses and counterexamples. -/

/-- Wednesday 2024-06-12, noon, as the "now" instant in the configured
timezone. -/
def refWed : DateTime := DateTime.mk (toordinal 2024 6 12) 43200

/-- A processor whose target directory is an absolute path strictly inside
the project root `/app` (e.g. `FileProcessor(Path("/app/media"))`). -/
def fpInside : FileProcessor := FileProcessor.mk (PyPath.mk true ["app", "media"]) ["app"]

/-- A processor whose target directory is an absolute path outside the
project root. -/
def fpOutside : FileProcessor := FileProcessor.mk (PyPath.mk true ["data", "m"]) ["app"]

/-- An aurora video for Monday, all stat calls succeeding. -/
def entAurora : Entry := Entry.mk "AuroraCam_Monday.mp4" true (some 100) (some 5)

/-- A second, distinguishable aurora video for Monday (a simulated duplicate
of `entAurora`, scanned later). -/
def entAurora2 : Entry := Entry.mk "AuroraCam_Monday.mp4" true (some 200) (some 7)

/-- The sibling thumbnail of `entAurora`. -/
def entThumb : Entry := Entry.mk "AuroraCam_Monday.thumbnail.jpg" true (some 100) (some 1)

/-- A current snapshot. -/
def entSnap : Entry := Entry.mk "snapshot.jpg" true (some 100) (some 2)

/-- A cloud video for Tuesday, all stat calls succeeding. -/
def entCloud : Entry := Entry.mk "CloudCam_Tuesday.mp4" true (some 100) (some 3)

/-- An unclassifiable file. -/
def entUnclass : Entry := Entry.mk "readme.txt" true (some 1) (some 1)

/-- A classified entry whose `stat()` call for the size raises `OSError`. -/
def entStatFail : Entry := Entry.mk "AuroraCam_Monday.mp4" true (some 100) none

/-- A classified entry for which both the mtime lookup and the size `stat()`
raise. -/
def entBothFail : Entry := Entry.mk "AuroraCam_Monday.mp4" true none none

/-- A classified entry whose mtime lookup raises but whose size `stat()`
succeeds. -/
def entMtimeFail : Entry := Entry.mk "AuroraCam_Monday.mp4" true none (some 5)

/-- A directory holding a snapshot together with classified day files. -/
def fsSnapDays : Fs := Fs.mk (some [entAurora, entThumb, entSnap, entCloud]) true true 999 refWed

/-- A directory holding two simulated duplicates of the same aurora file. -/
def fsDup : Fs := Fs.mk (some [entAurora, entAurora2]) false false 999 refWed

/-- A directory with an aurora video and its sibling thumbnail. -/
def fsThumb : Fs := Fs.mk (some [entAurora, entThumb]) true true 999 refWed

/-- A cloud video with no sibling thumbnail, day placeholder present. -/
def fsCloudOnly : Fs := Fs.mk (some [entCloud]) true true 999 refWed

/-- A directory where the first classified entry's size `stat()` raises and a
second classifiable entry follows. -/
def fsStatFail : Fs := Fs.mk (some [entStatFail, entCloud]) false false 999 refWed

/-- A directory with a single classified entry failing both stat calls. -/
def fsBothFail : Fs := Fs.mk (some [entBothFail]) false false 999 refWed

/-- A directory with a single classified entry failing only the mtime call. -/
def fsMtimeFail : Fs := Fs.mk (some [entMtimeFail]) false false 999 refWed

/-- An empty directory. -/
def fsEmptyDir : Fs := Fs.mk (some []) false false 999 refWed

/-- A directory whose listing itself raises `OSError`. -/
def fsListFail : Fs := Fs.mk none false false 999 refWed

/-- A directory with only an unclassifiable file. -/
def fsUnclass : Fs := Fs.mk (some [entUnclass]) false false 999 refWed

/-! Helper lemmas about the string primitives. -/

/-- `strBegins` agrees with the list-append reading of `str.startswith`. -/
theorem strBegins_iff (s p : List Char) : strBegins s p = true ↔ ∃ t, s = p ++ t := by
  induction p generalizing s with
  | nil => simp [strBegins]
  | cons c ps ih =>
    cases s with
    | nil => simp [strBegins]
    | cons a s' =>
      simp only [strBegins, Bool.and_eq_true, beq_iff_eq, ih, List.cons_append]
      constructor
      · rintro ⟨rfl, t, rfl⟩; exact ⟨t, rfl⟩
      · rintro ⟨t, h⟩; cases h; exact ⟨rfl, t, rfl⟩

/-- `strFinishes` agrees with the list-append reading of `str.endswith`. -/
theorem strFinishes_iff (s p : List Char) : strFinishes s p = true ↔ ∃ t, s = t ++ p := by
  unfold strFinishes
  rw [strBegins_iff]
  constructor
  · rintro ⟨t, h⟩
    refine ⟨t.reverse, ?_⟩
    have h2 := congrArg List.reverse h
    simpa using h2
  · rintro ⟨t, rfl⟩
    exact ⟨t.reverse, by simp⟩

/-- A string beginning with `c :: p` has head `c`. -/
theorem strBegins_head {s : List Char} {c : Char} {p : List Char}
    (h : strBegins s (c :: p) = true) : ∃ s', s = c :: s' := by
  rcases (strBegins_iff s (c :: p)).1 h with ⟨t, rfl⟩
  exact ⟨p ++ t, rfl⟩

/-- A string cannot begin with two words whose first characters differ. -/
theorem begins_clash {s : List Char} {c d : Char} {p q : List Char} (hcd : c ≠ d)
    (h1 : strBegins s (c :: p) = true) (h2 : strBegins s (d :: q) = true) : False := by
  rcases strBegins_head h1 with ⟨s1, e1⟩
  rcases strBegins_head h2 with ⟨s2, e2⟩
  rw [e1, List.cons_eq_cons] at e2
  exact hcd e2.1

/-- Only `'.'` lower-cases to `'.'`. -/
theorem lowerChar_to_dot (c : Char) (h : lowerChar c = '.') : c = '.' := by
  unfold lowerChar at h
  split at h <;> simp_all

/-- Only `'4'` lower-cases to `'4'`. -/
theorem lowerChar_to_four (c : Char) (h : lowerChar c = '4') : c = '4' := by
  unfold lowerChar at h
  split at h <;> simp_all

/-- Only `'f'` and `'F'` lower-case to `'f'`. -/
theorem lowerChar_to_f (c : Char) (h : lowerChar c = 'f') : c = 'f' ∨ c = 'F' := by
  unfold lowerChar at h
  split at h <;> simp_all

/-- Only `'i'` and `'I'` lower-case to `'i'`. -/
theorem lowerChar_to_i (c : Char) (h : lowerChar c = 'i') : c = 'i' ∨ c = 'I' := by
  unfold lowerChar at h
  split at h <;> simp_all

/-- Only `'g'` and `'G'` lower-case to `'g'`. -/
theorem lowerChar_to_g (c : Char) (h : lowerChar c = 'g') : c = 'g' ∨ c = 'G' := by
  unfold lowerChar at h
  split at h <;> simp_all

/-! Characterization of `_determine_file_type`. -/

/-- The aurora branch fires exactly on (case-insensitive) `AuroraCam*`
prefixed, `.mp4` suffixed names. -/
theorem dft_aurora (name : String) :
    determineFileType name = some "aurora" ↔
      (∃ t, lowerStr name.data = "auroracam".data ++ t) ∧
      (∃ t, lowerStr name.data = t ++ ".mp4".data) := by
  rw [← strBegins_iff, ← strFinishes_iff]
  simp only [determineFileType]
  split_ifs with h1 h2 h3 h4 <;> simp_all

/-- The cloud branch fires exactly on (case-insensitive) `CloudCam*`
prefixed, `.mp4` suffixed names. -/
theorem dft_cloud (name : String) :
    determineFileType name = some "cloud" ↔
      (∃ t, lowerStr name.data = "cloudcam".data ++ t) ∧
      (∃ t, lowerStr name.data = t ++ ".mp4".data) := by
  rw [← strBegins_iff, ← strFinishes_iff]
  simp only [determineFileType]
  split_ifs with h1 h2 h3 h4 <;> simp_all
  by_contra hb
  simp at hb
  exact begins_clash (by decide) h1.1 hb

/-- The spaceweather branch fires exactly on (case-insensitive)
`SpaceWeather*` prefixed, `.gif` suffixed names. -/
theorem dft_spaceweather (name : String) :
    determineFileType name = some "spaceweather" ↔
      (∃ t, lowerStr name.data = "spaceweather".data ++ t) ∧
      (∃ t, lowerStr name.data = t ++ ".gif".data) := by
  rw [← strBegins_iff, ← strFinishes_iff]
  simp only [determineFileType]
  split_ifs with h1 h2 h3 h4 <;> simp_all
  · by_contra hb
    simp at hb
    exact begins_clash (by decide) h1.1 hb.1
  · by_contra hb
    simp at hb
    exact begins_clash (by decide) h2.1 hb.1

/-- The snapshot branch fires exactly on names equal (case-insensitively) to
`snapshot.jpg`. -/
theorem dft_snapshot (name : String) :
    determineFileType name = some "snapshot" ↔ lowerStr name.data = "snapshot.jpg".data := by
  simp only [determineFileType]
  split_ifs with h1 h2 h3 h4
  · exact iff_of_false (by simp) (fun h => by rw [h] at h1; exact absurd h1 (by decide))
  · exact iff_of_false (by simp) (fun h => by rw [h] at h2; exact absurd h2 (by decide))
  · exact iff_of_false (by simp) (fun h => by rw [h] at h3; exact absurd h3 (by decide))
  · exact iff_of_true rfl (by simpa using h4)
  · exact iff_of_false (by simp) (fun h => h4 (by simp [h]))

/-- The classifier returns nothing besides its five possible results. -/
theorem dft_shapes (name : String) :
    determineFileType name = none ∨ determineFileType name = some "aurora" ∨
    determineFileType name = some "cloud" ∨ determineFileType name = some "spaceweather" ∨
    determineFileType name = some "snapshot" := by
  simp only [determineFileType]
  split_ifs <;> simp

/-! Characterization of `_parse_day_from_filename`. -/

/-- A first-pattern candidate is always one of the seven canonical names. -/
theorem patternCandidate_mem (s : List Char) (d : String) (h : patternCandidate s = some d) :
    d ∈ DAYS_ORDER := by
  unfold patternCandidate at h
  cases hs : searchDayPattern s with
  | none => rw [hs] at h; cases h
  | some run =>
    rw [hs] at h
    dsimp only at h
    by_cases hc : DAYS_ORDER.contains (titleWord run) = true
    · rw [if_pos hc] at h
      cases h
      exact List.mem_of_elem_eq_true hc
    · rw [if_neg hc] at h
      cases h

/-- A fallback candidate is always one of the seven canonical names. -/
theorem fallbackCandidate_mem (s : List Char) (d : String) (h : fallbackCandidate s = some d) :
    d ∈ DAYS_ORDER := by
  unfold fallbackCandidate at h
  dsimp only at h
  by_cases he : (trailRun s).isEmpty = true
  · rw [if_pos he] at h; cases h
  · rw [if_neg he] at h
    by_cases hc : DAYS_ORDER.contains (titleWord (trailRun s)) = true
    · rw [if_pos hc] at h
      cases h
      exact List.mem_of_elem_eq_true hc
    · rw [if_neg hc] at h
      cases h

/-- A parsed day is always one of the seven canonical names. -/
theorem parseDay_mem (name : String) (d : String) (h : parseDayFromFilename name = some d) :
    d ∈ DAYS_ORDER := by
  unfold parseDayFromFilename at h
  cases hp : patternCandidate name.data with
  | some d' => rw [hp] at h; cases h; exact patternCandidate_mem _ _ hp
  | none => rw [hp] at h; exact fallbackCandidate_mem _ _ h

/-- A name (case-insensitively) ending in `.mp4` has no trailing letter run:
its last character is the digit `4`. -/
theorem fallback_dead_mp4 (cs : List Char) (h : strFinishes (lowerStr cs) ".mp4".data = true) :
    trailRun cs = [] := by
  rcases (strFinishes_iff _ _).1 h with ⟨t, ht⟩
  have hrev : cs.reverse.map lowerChar = '4' :: 'p' :: 'm' :: '.' :: t.reverse := by
    have h2 := congrArg List.reverse ht
    simpa [lowerStr, List.map_reverse] using h2
  cases hcs : cs.reverse with
  | nil => rw [hcs] at hrev; simp at hrev
  | cons c0 r =>
    rw [hcs] at hrev
    simp only [List.map_cons, List.cons_eq_cons] at hrev
    have hc0 : c0 = '4' := lowerChar_to_four c0 hrev.1
    unfold trailRun
    rw [hcs, hc0]
    simp [List.takeWhile, isAsciiAlpha]

/-- For a name (case-insensitively) ending in `.gif` the trailing letter run
is exactly the extension `gif`, whose title case `Gif` is not a day name, so
the fallback pattern rejects it. -/
theorem fallback_dead_gif (cs : List Char) (h : strFinishes (lowerStr cs) ".gif".data = true) :
    fallbackCandidate cs = none := by
  rcases (strFinishes_iff _ _).1 h with ⟨t, ht⟩
  have hrev : cs.reverse.map lowerChar = 'f' :: 'i' :: 'g' :: '.' :: t.reverse := by
    have h2 := congrArg List.reverse ht
    simpa [lowerStr, List.map_reverse] using h2
  cases hcs : cs.reverse with
  | nil => rw [hcs] at hrev; simp at hrev
  | cons c3 r3 =>
    cases r3 with
    | nil => rw [hcs] at hrev; simp [List.cons_eq_cons] at hrev
    | cons c2 r2 =>
      cases r2 with
      | nil => rw [hcs] at hrev; simp [List.cons_eq_cons] at hrev
      | cons c1 r1 =>
        cases r1 with
        | nil => rw [hcs] at hrev; simp [List.cons_eq_cons] at hrev
        | cons c0 r =>
          rw [hcs] at hrev
          simp only [List.map_cons, List.cons_eq_cons] at hrev
          obtain ⟨h3, h2', h1, h0, -⟩ := hrev
          have hc0 : c0 = '.' := lowerChar_to_dot c0 h0
          unfold fallbackCandidate trailRun
          rw [hcs, hc0]
          rcases lowerChar_to_f c3 h3 with rfl | rfl <;>
            rcases lowerChar_to_i c2 h2' with rfl | rfl <;>
            rcases lowerChar_to_g c1 h1 with rfl | rfl <;>
            simp [List.takeWhile, isAsciiAlpha, titleWord, upperChar, lowerChar] <;> decide

/-- On any classified non-snapshot filename the fallback pattern yields
nothing (such names end in `mp4` or `gif`). -/
theorem classified_fallback_none (name : String) (t : String)
    (h : determineFileType name = some t) (ht : t ≠ "snapshot") :
    fallbackCandidate name.data = none := by
  rcases dft_shapes name with h0 | h0 | h0 | h0 | h0 <;> rw [h0] at h
  · cases h
  · rcases (dft_aurora name).1 h0 with ⟨-, hfin⟩
    have hmp4 : strFinishes (lowerStr name.data) ".mp4".data = true :=
      (strFinishes_iff _ _).2 hfin
    unfold fallbackCandidate
    rw [fallback_dead_mp4 _ hmp4]
    rfl
  · rcases (dft_cloud name).1 h0 with ⟨-, hfin⟩
    have hmp4 : strFinishes (lowerStr name.data) ".mp4".data = true :=
      (strFinishes_iff _ _).2 hfin
    unfold fallbackCandidate
    rw [fallback_dead_mp4 _ hmp4]
    rfl
  · rcases (dft_spaceweather name).1 h0 with ⟨-, hfin⟩
    exact fallback_dead_gif _ ((strFinishes_iff _ _).2 hfin)
  · cases h; exact absurd rfl ht

/-- On classified non-snapshot filenames the whole parse is decided by the
first pattern alone. -/
theorem parse_classified (name : String) (t : String)
    (h : determineFileType name = some t) (ht : t ≠ "snapshot") :
    parseDayFromFilename name = patternCandidate name.data := by
  unfold parseDayFromFilename
  cases hp : patternCandidate name.data with
  | some d => rfl
  | none => exact classified_fallback_none name t h ht

/-- The first element surviving `dropWhile` fails the predicate. -/
theorem dropWhile_head_false {α : Type} {p : α → Bool} :
    ∀ (l : List α) {c : α} {r : List α}, l.dropWhile p = c :: r → p c = false := by
  intro l
  induction l with
  | nil => intro c r h; cases h
  | cons a as ih =>
    intro c r h
    by_cases hp : p a = true
    · rw [List.dropWhile_cons_of_pos hp] at h
      exact ih h
    · rw [List.dropWhile_cons_of_neg hp] at h
      cases h
      simpa using hp

/-- `trailRun` really is the trailing alphabetic run of the full filename:
all its characters are letters, it is a suffix, and the character preceding
it (when there is one) is not a letter. -/
theorem trailRun_spec (s : List Char) :
    (∀ c ∈ trailRun s, isAsciiAlpha c = true) ∧
    ∃ t, s = t ++ trailRun s ∧
      (t = [] ∨ ∃ t' c0, t = t' ++ [c0] ∧ isAsciiAlpha c0 = false) := by
  constructor
  · intro c hc
    unfold trailRun at hc
    rw [List.mem_reverse] at hc
    exact List.mem_takeWhile_imp hc
  · refine ⟨(s.reverse.dropWhile (fun c => isAsciiAlpha c)).reverse, ?_, ?_⟩
    · unfold trailRun
      rw [← List.reverse_append, List.takeWhile_append_dropWhile, List.reverse_reverse]
    · cases hd : s.reverse.dropWhile (fun c => isAsciiAlpha c) with
      | nil => left; simp
      | cons c0 r =>
        right
        refine ⟨r.reverse, c0, by simp, ?_⟩
        exact dropWhile_head_false s.reverse hd

/-! Claim theorems. -/

/-- C1: for every canonical weekday name and reference instant, the resolved
semantic date is the reference truncated to midnight minus
`(reference_weekday_index - index_of_d + 7) % 7` days; it is the most recent
calendar occurrence of that weekday on or before the reference (equal to the
reference date when today is that weekday), and for the fixed "now" of
Wednesday 2024-06-12 the names Wednesday, Monday, Sunday resolve to
2024-06-12, 2024-06-10 and 2024-06-09. The computation takes no file
timestamp input at all. -/
theorem semantic_date_resolution :
    (∀ (d : String) (ref : DateTime), d ∈ DAYS_ORDER →
      (getDateForDay d ref).tod = 0 ∧
      (getDateForDay d ref).ord =
        ref.ord - (weekdayOf ref.ord - (DAYS_ORDER.indexOf d : Int) + 7) % 7 ∧
      (getDateForDay d ref).ord ≤ ref.ord ∧
      ref.ord - (getDateForDay d ref).ord < 7 ∧
      weekdayOf (getDateForDay d ref).ord = (DAYS_ORDER.indexOf d : Int) ∧
      (weekdayOf ref.ord = (DAYS_ORDER.indexOf d : Int) → (getDateForDay d ref).ord = ref.ord)) ∧
    getDateForDay "Wednesday" refWed = DateTime.mk (toordinal 2024 6 12) 0 ∧
    getDateForDay "Monday" refWed = DateTime.mk (toordinal 2024 6 10) 0 ∧
    getDateForDay "Sunday" refWed = DateTime.mk (toordinal 2024 6 9) 0 ∧
    weekdayOf (toordinal 2024 6 12) = 2 := by
  refine ⟨?_, by decide, by decide, by decide, by decide⟩
  intro d ref hd
  have hidx : DAYS_ORDER.indexOf d < 7 := by
    have h7 : DAYS_ORDER.indexOf d < DAYS_ORDER.length := List.indexOf_lt_length.2 hd
    simpa [DAYS_ORDER] using h7
  have hi7 : (DAYS_ORDER.indexOf d : Int) < 7 := by exact_mod_cast hidx
  have hi0 : (0 : Int) ≤ (DAYS_ORDER.indexOf d : Int) := Int.ofNat_nonneg _
  unfold getDateForDay weekdayOf
  refine ⟨rfl, rfl, ?_, ?_, ?_, ?_⟩ <;> dsimp only <;> omega

/-- C1 witness: instantiated at Monday and the fixed Wednesday reference. -/
theorem semantic_date_resolution_witness :
    "Monday" ∈ DAYS_ORDER ∧
    weekdayOf (getDateForDay "Monday" refWed).ord = (DAYS_ORDER.indexOf "Monday" : Int) :=
  ⟨by decide, (semantic_date_resolution.1 "Monday" refWed (by decide)).2.2.2.2.1⟩

/-- C2: classification is a pure, case-insensitive function of the filename
alone: aurora iff the lower-cased name starts with `auroracam` and ends with
`.mp4`, cloud iff `cloudcam`/`.mp4`, spaceweather iff `spaceweather`/`.gif`,
snapshot iff the name equals `snapshot.jpg` case-insensitively, unclassified
otherwise; `CLOUDCAM_tuesday.MP4` classifies as cloud, and entries that are
not regular files or are unclassified are skipped by the scan with no
error. -/
theorem classification_pure_case_insensitive :
    (∀ name : String,
      (determineFileType name = some "aurora" ↔
        (∃ t, lowerStr name.data = "auroracam".data ++ t) ∧
        (∃ t, lowerStr name.data = t ++ ".mp4".data)) ∧
      (determineFileType name = some "cloud" ↔
        (∃ t, lowerStr name.data = "cloudcam".data ++ t) ∧
        (∃ t, lowerStr name.data = t ++ ".mp4".data)) ∧
      (determineFileType name = some "spaceweather" ↔
        (∃ t, lowerStr name.data = "spaceweather".data ++ t) ∧
        (∃ t, lowerStr name.data = t ++ ".gif".data)) ∧
      (determineFileType name = some "snapshot" ↔ lowerStr name.data = "snapshot.jpg".data) ∧
      (determineFileType name = none ↔
        determineFileType name ≠ some "aurora" ∧ determineFileType name ≠ some "cloud" ∧
        determineFileType name ≠ some "spaceweather" ∧
        determineFileType name ≠ some "snapshot")) ∧
    determineFileType "CLOUDCAM_tuesday.MP4" = some "cloud" ∧
    (∀ fp fs entries e rest, e.isFileFlag = false ∨ determineFileType e.name = none →
      mkScan fp fs entries (e :: rest) = mkScan fp fs entries rest) := by
  refine ⟨?_, by decide, ?_⟩
  · intro name
    refine ⟨dft_aurora name, dft_cloud name, dft_spaceweather name, dft_snapshot name, ?_⟩
    constructor
    · intro h
      exact ⟨by simp [h], by simp [h], by simp [h], by simp [h]⟩
    · rintro ⟨h1, h2, h3, h4⟩
      rcases dft_shapes name with h | h | h | h | h
      · exact h
      · exact absurd h h1
      · exact absurd h h2
      · exact absurd h h3
      · exact absurd h h4
  · intro fp fs entries e rest h
    rcases h with h | h
    · simp [mkScan, h]
    · cases hf : e.isFileFlag
      · simp [mkScan, hf]
      · simp [mkScan, hf, h]

/-- C2 witness: a plain text file is unclassified and contributes nothing to
the scan. -/
theorem classification_pure_case_insensitive_witness :
    determineFileType "readme.txt" = none ∧
    mkScan fpOutside fsUnclass [] [entUnclass] = mkScan fpOutside fsUnclass [] [] :=
  ⟨by decide,
    classification_pure_case_insensitive.2.2 fpOutside fsUnclass [] entUnclass []
      (Or.inr (by decide))⟩

/-- C3 counterexample: the claim says `CloudCamMonday.mp4` yields Monday via
the fallback pattern, but the fallback runs on the full filename including
its extension, whose last character is the digit `4`, so the parse yields no
weekday at all (while the file does classify as cloud). -/
theorem weekday_extraction_counterexample :
    parseDayFromFilename "CloudCamMonday.mp4" = none ∧
    determineFileType "CloudCamMonday.mp4" = some "cloud" := by
  constructor <;> decide

/-- C3 (amended): weekday extraction first tries the pattern
`<Prefix>_<WeekdayName>.<ext>` (case-insensitive, title-cased, accepted iff
canonical); the fallback takes the trailing alphabetic run of the FULL
filename (including its extension), so on classified non-snapshot names
(ending in `mp4`/`gif`) it never yields a weekday and the parse is decided by
the first pattern alone; every parsed day is canonical; a file without a
parsed weekday contributes nothing to grouping; `CloudCamMonday.mp4` yields
no weekday while a bare name that truly ends with a day name is accepted by
the fallback. -/
theorem weekday_extraction_amended :
    (∀ name t, determineFileType name = some t → t ≠ "snapshot" →
      parseDayFromFilename name = patternCandidate name.data) ∧
    (∀ name d, parseDayFromFilename name = some d → d ∈ DAYS_ORDER) ∧
    (∀ s : List Char,
      (∀ c ∈ trailRun s, isAsciiAlpha c = true) ∧
      ∃ t, s = t ++ trailRun s ∧
        (t = [] ∨ ∃ t' c0, t = t' ++ [c0] ∧ isAsciiAlpha c0 = false)) ∧
    (∀ s d, fallbackCandidate s = some d →
      trailRun s ≠ [] ∧ d = titleWord (trailRun s) ∧ d ∈ DAYS_ORDER) ∧
    (∀ files ref f, f.day = none → f.type ≠ "snapshot" →
      groupFilesByDay (f :: files) ref = groupFilesByDay files ref) ∧
    parseDayFromFilename "CloudCamMonday.mp4" = none ∧
    parseDayFromFilename "foo_Monday" = some "Monday" := by
  refine ⟨parse_classified, parseDay_mem, trailRun_spec, ?_, ?_, by decide, by decide⟩
  · intro s d h
    unfold fallbackCandidate at h
    dsimp only at h
    by_cases he : (trailRun s).isEmpty = true
    · rw [if_pos he] at h; cases h
    · rw [if_neg he] at h
      by_cases hc : DAYS_ORDER.contains (titleWord (trailRun s)) = true
      · rw [if_pos hc] at h
        cases h
        exact ⟨by simpa [List.isEmpty_iff] using he, rfl, List.mem_of_elem_eq_true hc⟩
      · rw [if_neg hc] at h
        cases h
  · intro files ref f hday htype
    simp only [groupFilesByDay]
    have hfilter : DAYS_ORDER.filter (fun d => (f :: files).any (fun g => g.day == some d)) =
        DAYS_ORDER.filter (fun d => files.any (fun g => g.day == some d)) := by
      apply List.filter_congr
      intro d _
      rw [List.any_cons, hday]
      simp
    rw [List.foldl_cons, hfilter]
    have hstep : ∀ acc : List (String × DayMedia) × Option MediaFile,
        assignStep acc f = acc := by
      intro acc
      unfold assignStep
      rw [if_neg (by simpa using htype), hday]
    rw [hstep]

/-- C3 witness: a classified aurora name on which the first pattern fails (no
underscore directly after the prefix); the parse is decided by the first
pattern, hence yields nothing. -/
theorem weekday_extraction_amended_witness :
    determineFileType "AuroraCamfoo_Monday.mp4" = some "aurora" ∧
    parseDayFromFilename "AuroraCamfoo_Monday.mp4" =
      patternCandidate "AuroraCamfoo_Monday.mp4".data :=
  ⟨by decide,
    weekday_extraction_amended.1 "AuroraCamfoo_Monday.mp4" "aurora" (by decide) (by decide)⟩

/-! Characterization of `_group_files_by_day`. -/

/-- `setSlot` never changes the date or the day name. -/
theorem setSlot_date (f : MediaFile) (dm : DayMedia) :
    (setSlot f dm).date = dm.date ∧ (setSlot f dm).day_name = dm.day_name := by
  unfold setSlot
  split_ifs <;> exact ⟨rfl, rfl⟩

/-- Key, date and day name of every dict entry survive `updateDay`. -/
theorem updateDay_shape (l : List (String × DayMedia)) (d : String) (f : MediaFile) :
    (updateDay l d f).map (fun kv => (kv.1, kv.2.date, kv.2.day_name)) =
      l.map (fun kv => (kv.1, kv.2.date, kv.2.day_name)) := by
  unfold updateDay
  rw [List.map_map]
  apply List.map_congr_left
  intro kv _
  by_cases h : (kv.1 == d) = true
  · simp only [Function.comp_apply, if_pos h, (setSlot_date f kv.2).1, (setSlot_date f kv.2).2]
  · simp only [Function.comp_apply, if_neg h]

/-- Key, date and day name of every dict entry survive one assignment step. -/
theorem assignStep_shape (acc : List (String × DayMedia)) (s : Option MediaFile) (f : MediaFile) :
    ((assignStep (acc, s) f).1).map (fun kv => (kv.1, kv.2.date, kv.2.day_name)) =
      acc.map (fun kv => (kv.1, kv.2.date, kv.2.day_name)) := by
  unfold assignStep
  by_cases hsnap : (f.type == "snapshot") = true
  · rw [if_pos hsnap]
  · rw [if_neg hsnap]
    cases hday : f.day with
    | none => rfl
    | some d =>
      dsimp only
      by_cases hk : acc.any (fun kv => kv.1 == d) = true
      · rw [if_pos hk]
        exact updateDay_shape acc d f
      · rw [if_neg hk]

/-- Key, date and day name of every dict entry survive the whole assignment
loop. -/
theorem foldAssign_shape (files : List MediaFile) :
    ∀ (acc : List (String × DayMedia)) (s : Option MediaFile),
      ((files.foldl assignStep (acc, s)).1).map (fun kv => (kv.1, kv.2.date, kv.2.day_name)) =
        acc.map (fun kv => (kv.1, kv.2.date, kv.2.day_name)) := by
  induction files with
  | nil => intro acc s; rfl
  | cons f fs ih =>
    intro acc s
    rw [List.foldl_cons]
    rcases hstep : assignStep (acc, s) f with ⟨acc', s'⟩
    rw [ih acc' s']
    have hsh := assignStep_shape acc s f
    rw [hstep] at hsh
    exact hsh

/-- The last element of a nonempty list, seen through `Option.or`. -/
theorem getLast?_cons_or {α : Type} (a : α) (l : List α) (s : Option α) :
    ((a :: l).getLast?).or s = (l.getLast?).or (some a) := by
  cases l with
  | nil => simp
  | cons b bs =>
    rw [List.getLast?_cons_cons]
    have h := List.getLast?_eq_getLast (b :: bs) (by simp)
    rw [h]
    simp

/-- The snapshot component after the assignment loop is the last snapshot in
scan order (or the initial value when there is none). -/
theorem foldAssign_snd (files : List MediaFile) :
    ∀ (acc : List (String × DayMedia)) (s : Option MediaFile),
      (files.foldl assignStep (acc, s)).2 =
        ((files.filter (fun f => f.type == "snapshot")).getLast?).or s := by
  induction files with
  | nil => intro acc s; rfl
  | cons f fs ih =>
    intro acc s
    rw [List.foldl_cons]
    rcases hstep : assignStep (acc, s) f with ⟨acc', s'⟩
    rw [ih acc' s']
    by_cases hsnap : (f.type == "snapshot") = true
    · rw [List.filter_cons, if_pos hsnap]
      have hs' : s' = some f := by
        have h2 : (assignStep (acc, s) f).2 = some f := by
          unfold assignStep
          rw [if_pos hsnap]
        rw [hstep] at h2
        exact h2
      rw [hs', getLast?_cons_or]
    · rw [List.filter_cons, if_neg hsnap]
      have hs' : s' = s := by
        have h2 : (assignStep (acc, s) f).2 = s := by
          unfold assignStep
          rw [if_neg hsnap]
          cases hday : f.day with
          | none => rfl
          | some d =>
            dsimp only
            by_cases hk : acc.any (fun kv => kv.1 == d) = true
            · rw [if_pos hk]
            · rw [if_neg hk]
        rw [hstep] at h2
        exact h2
      rw [hs']

/-- Full pointwise characterization of the assignment loop: every dict entry
ends up holding the fold of `setSlot` over the non-snapshot files carrying
its day, in scan order. -/
theorem foldAssign_map (files : List MediaFile) :
    ∀ (acc : List (String × DayMedia)) (s : Option MediaFile),
      (files.foldl assignStep (acc, s)).1 =
        acc.map (fun kv => (kv.1,
          (files.filter (fun f => !(f.type == "snapshot") && f.day == some kv.1)).foldl
            (fun v f => setSlot f v) kv.2)) := by
  induction files with
  | nil =>
    intro acc s
    simp
  | cons f fs ih =>
    intro acc s
    rw [List.foldl_cons]
    rcases hstep : assignStep (acc, s) f with ⟨acc', s'⟩
    rw [ih acc' s']
    by_cases hsnap : (f.type == "snapshot") = true
    · have ha : acc' = acc := by
        have h2 : (assignStep (acc, s) f).1 = acc := by
          unfold assignStep
          rw [if_pos hsnap]
        rw [hstep] at h2
        exact h2
      rw [ha]
      apply List.map_congr_left
      intro kv _
      rw [List.filter_cons, if_neg (by simp [hsnap])]
    · cases hday : f.day with
      | none =>
        have ha : acc' = acc := by
          have h2 : (assignStep (acc, s) f).1 = acc := by
            unfold assignStep
            rw [if_neg hsnap, hday]
          rw [hstep] at h2
          exact h2
        rw [ha]
        apply List.map_congr_left
        intro kv _
        rw [List.filter_cons, if_neg (by simp [hday])]
      | some d =>
        by_cases hk : acc.any (fun kv => kv.1 == d) = true
        · have ha : acc' = updateDay acc d f := by
            have h2 : (assignStep (acc, s) f).1 = updateDay acc d f := by
              unfold assignStep
              rw [if_neg hsnap, hday]
              dsimp only
              rw [if_pos hk]
            rw [hstep] at h2
            exact h2
          rw [ha]
          unfold updateDay
          rw [List.map_map]
          apply List.map_congr_left
          intro kv _
          have hsnapF : (f.type == "snapshot") = false := by
            cases hb : (f.type == "snapshot")
            · rfl
            · exact absurd hb hsnap
          by_cases hkd : (kv.1 == d) = true
          · have hkd' : kv.1 = d := by simpa using hkd
            simp only [Function.comp_apply, if_pos hkd]
            rw [List.filter_cons,
              if_pos (by rw [hsnapF, hday, hkd', Bool.not_false, Bool.true_and]; simp),
              List.foldl_cons]
          · have hkd' : ¬ kv.1 = d := by simpa using hkd
            simp only [Function.comp_apply, if_neg hkd]
            rw [List.filter_cons, if_neg (by
              rw [hsnapF, hday, Bool.not_false, Bool.true_and]
              intro hbad
              have hdd := eq_of_beq hbad
              injection hdd with hdd'
              exact hkd' hdd'.symm)]
        · have ha : acc' = acc := by
            have h2 : (assignStep (acc, s) f).1 = acc := by
              unfold assignStep
              rw [if_neg hsnap, hday]
              dsimp only
              rw [if_neg hk]
            rw [hstep] at h2
            exact h2
          rw [ha]
          apply List.map_congr_left
          intro kv hkv
          have hkf : acc.any (fun kv => kv.1 == d) = false := by
            cases hb : acc.any (fun kv => kv.1 == d)
            · rfl
            · exact absurd hb hk
          have hne : ¬ ((kv.1 == d) = true) := by
            have h3 := List.any_eq_false.mp hkf kv hkv
            simpa using h3
          have hne' : kv.1 ≠ d := by simpa using hne
          have hsnapF : (f.type == "snapshot") = false := by
            cases hb : (f.type == "snapshot")
            · rfl
            · exact absurd hb hsnap
          rw [List.filter_cons, if_neg (by
            rw [hsnapF, hday, Bool.not_false, Bool.true_and]
            intro hbad
            have hdd := eq_of_beq hbad
            injection hdd with hdd'
            exact hne' hdd'.symm)]

/-- An aurora file lands in the aurora slot. -/
theorem setSlot_aurora_of (f : MediaFile) (dm : DayMedia) (h : f.type = "aurora") :
    (setSlot f dm).aurora_video = some f := by
  unfold setSlot
  rw [if_pos (by rw [h]; decide)]

/-- A non-aurora file leaves the aurora slot alone. -/
theorem setSlot_aurora_of_ne (f : MediaFile) (dm : DayMedia) (h : f.type ≠ "aurora") :
    (setSlot f dm).aurora_video = dm.aurora_video := by
  unfold setSlot
  split_ifs with h1 h2 h3
  · exact absurd (eq_of_beq h1) h
  · rfl
  · rfl
  · rfl

/-- A cloud file lands in the cloud slot. -/
theorem setSlot_cloud_of (f : MediaFile) (dm : DayMedia) (h : f.type = "cloud") :
    (setSlot f dm).cloud_video = some f := by
  unfold setSlot
  rw [if_neg (by rw [h]; decide), if_pos (by rw [h]; decide)]

/-- A non-cloud file leaves the cloud slot alone. -/
theorem setSlot_cloud_of_ne (f : MediaFile) (dm : DayMedia) (h : f.type ≠ "cloud") :
    (setSlot f dm).cloud_video = dm.cloud_video := by
  unfold setSlot
  split_ifs with h1 h2 h3
  · rfl
  · exact absurd (eq_of_beq h2) h
  · rfl
  · rfl

/-- A spaceweather file lands in the spaceweather slot. -/
theorem setSlot_spaceweather_of (f : MediaFile) (dm : DayMedia) (h : f.type = "spaceweather") :
    (setSlot f dm).spaceweather_image = some f := by
  unfold setSlot
  rw [if_neg (by rw [h]; decide), if_neg (by rw [h]; decide), if_pos (by rw [h]; decide)]

/-- A non-spaceweather file leaves the spaceweather slot alone. -/
theorem setSlot_spaceweather_of_ne (f : MediaFile) (dm : DayMedia) (h : f.type ≠ "spaceweather") :
    (setSlot f dm).spaceweather_image = dm.spaceweather_image := by
  unfold setSlot
  split_ifs with h1 h2 h3
  · rfl
  · rfl
  · exact absurd (eq_of_beq h3) h
  · rfl

/-- Date and day name survive a whole fold of slot assignments. -/
theorem foldSetSlot_date (files : List MediaFile) :
    ∀ dm : DayMedia, (files.foldl (fun v f => setSlot f v) dm).date = dm.date ∧
      (files.foldl (fun v f => setSlot f v) dm).day_name = dm.day_name := by
  induction files with
  | nil => intro dm; exact ⟨rfl, rfl⟩
  | cons f fs ih =>
    intro dm
    rw [List.foldl_cons]
    rcases ih (setSlot f dm) with ⟨h1, h2⟩
    rcases setSlot_date f dm with ⟨h3, h4⟩
    exact ⟨h1.trans h3, h2.trans h4⟩

/-- The aurora slot after a fold of slot assignments is the last aurora file
of the list (or the initial slot). -/
theorem foldSetSlot_aurora (files : List MediaFile) (dm : DayMedia) :
    (files.foldl (fun v f => setSlot f v) dm).aurora_video =
      ((files.filter (fun f => f.type == "aurora")).getLast?).or dm.aurora_video := by
  induction files using List.reverseRecOn with
  | nil => simp
  | append_singleton l x ih =>
    rw [List.foldl_append, List.foldl_cons, List.foldl_nil, List.filter_append]
    by_cases hx : (x.type == "aurora") = true
    · rw [setSlot_aurora_of x _ (eq_of_beq hx)]
      rw [show List.filter (fun f => f.type == "aurora") [x] = [x] from by
        rw [List.filter_cons, if_pos hx]; rfl]
      rw [List.getLast?_concat]
      rfl
    · have hx' : x.type ≠ "aurora" := fun hh => hx (by rw [hh]; decide)
      rw [setSlot_aurora_of_ne x _ hx', ih]
      rw [show List.filter (fun f => f.type == "aurora") [x] = [] from by
        rw [List.filter_cons, if_neg hx]; rfl]
      rw [List.append_nil]

/-- The cloud slot after a fold of slot assignments is the last cloud file of
the list (or the initial slot). -/
theorem foldSetSlot_cloud (files : List MediaFile) (dm : DayMedia) :
    (files.foldl (fun v f => setSlot f v) dm).cloud_video =
      ((files.filter (fun f => f.type == "cloud")).getLast?).or dm.cloud_video := by
  induction files using List.reverseRecOn with
  | nil => simp
  | append_singleton l x ih =>
    rw [List.foldl_append, List.foldl_cons, List.foldl_nil, List.filter_append]
    by_cases hx : (x.type == "cloud") = true
    · rw [setSlot_cloud_of x _ (eq_of_beq hx)]
      rw [show List.filter (fun f => f.type == "cloud") [x] = [x] from by
        rw [List.filter_cons, if_pos hx]; rfl]
      rw [List.getLast?_concat]
      rfl
    · have hx' : x.type ≠ "cloud" := fun hh => hx (by rw [hh]; decide)
      rw [setSlot_cloud_of_ne x _ hx', ih]
      rw [show List.filter (fun f => f.type == "cloud") [x] = [] from by
        rw [List.filter_cons, if_neg hx]; rfl]
      rw [List.append_nil]

/-- The spaceweather slot after a fold of slot assignments is the last
spaceweather file of the list (or the initial slot). -/
theorem foldSetSlot_spaceweather (files : List MediaFile) (dm : DayMedia) :
    (files.foldl (fun v f => setSlot f v) dm).spaceweather_image =
      ((files.filter (fun f => f.type == "spaceweather")).getLast?).or dm.spaceweather_image := by
  induction files using List.reverseRecOn with
  | nil => simp
  | append_singleton l x ih =>
    rw [List.foldl_append, List.foldl_cons, List.foldl_nil, List.filter_append]
    by_cases hx : (x.type == "spaceweather") = true
    · rw [setSlot_spaceweather_of x _ (eq_of_beq hx)]
      rw [show List.filter (fun f => f.type == "spaceweather") [x] = [x] from by
        rw [List.filter_cons, if_pos hx]; rfl]
      rw [List.getLast?_concat]
      rfl
    · have hx' : x.type ≠ "spaceweather" := fun hh => hx (by rw [hh]; decide)
      rw [setSlot_spaceweather_of_ne x _ hx', ih]
      rw [show List.filter (fun f => f.type == "spaceweather") [x] = [] from by
        rw [List.filter_cons, if_neg hx]; rfl]
      rw [List.append_nil]

/-- Closed form of `_group_files_by_day`: one entry per day name carried by
some file (in `DAYS_ORDER` order) holding the `setSlot`-fold of the
non-snapshot files of that day, and the last snapshot separately. -/
theorem groupFilesByDay_eq (files : List MediaFile) (ref : DateTime) :
    groupFilesByDay files ref =
      ((DAYS_ORDER.filter (fun d => files.any (fun f => f.day == some d))).map
        (fun d => (d,
          (files.filter (fun f => !(f.type == "snapshot") && f.day == some d)).foldl
            (fun v f => setSlot f v)
            (DayMedia.mk (getDateForDay d ref) d none none none))),
       (files.filter (fun f => f.type == "snapshot")).getLast?) := by
  unfold groupFilesByDay
  dsimp only
  refine Prod.ext ?_ ?_
  · rw [foldAssign_map, List.map_map]
    rfl
  · rw [foldAssign_snd, Option.or_none]

/-- Inversion for the scan loop: every produced `MediaFile` comes from a
regular-file entry of the remaining list, classified by its name, with the
exact fields the loop body assigns. -/
theorem mkScan_mem (fp : FileProcessor) (fs : Fs) (entries : List Entry) :
    ∀ (l : List Entry) (f : MediaFile), f ∈ mkScan fp fs entries l →
      ∃ e ∈ l, e.isFileFlag = true ∧
        ∃ t sz, determineFileType e.name = some t ∧ e.size = some sz ∧
          f = mkMediaFile fp fs entries e t sz := by
  intro l
  induction l with
  | nil =>
    intro f hf
    simp [mkScan] at hf
  | cons e rest ih =>
    intro f hf
    cases hfl : e.isFileFlag with
    | false =>
      have heq : mkScan fp fs entries (e :: rest) = mkScan fp fs entries rest := by
        simp [mkScan, hfl]
      rw [heq] at hf
      rcases ih f hf with ⟨e', he', rest'⟩
      exact ⟨e', List.mem_cons_of_mem e he', rest'⟩
    | true =>
      cases hdft : determineFileType e.name with
      | none =>
        have heq : mkScan fp fs entries (e :: rest) = mkScan fp fs entries rest := by
          simp [mkScan, hfl, hdft]
        rw [heq] at hf
        rcases ih f hf with ⟨e', he', rest'⟩
        exact ⟨e', List.mem_cons_of_mem e he', rest'⟩
      | some t =>
        cases hsz : e.size with
        | none =>
          have heq : mkScan fp fs entries (e :: rest) = [] := by
            simp [mkScan, hfl, hdft, hsz]
          rw [heq] at hf
          simp at hf
        | some sz =>
          have heq : mkScan fp fs entries (e :: rest) =
              mkMediaFile fp fs entries e t sz :: mkScan fp fs entries rest := by
            simp [mkScan, hfl, hdft, hsz]
          rw [heq] at hf
          rcases List.mem_cons.mp hf with rfl | hf'
          · exact ⟨e, List.mem_cons_self e rest, hfl, t, sz, hdft, hsz, rfl⟩
          · rcases ih f hf' with ⟨e', he', rest'⟩
            exact ⟨e', List.mem_cons_of_mem e he', rest'⟩

/-- Well-formedness of every scanned file: its type is one of the four kinds;
snapshots carry neither day nor thumbnail; spaceweather images carry no
thumbnail; a carried day is canonical and only on non-snapshots. -/
theorem scanFiles_wf (fp : FileProcessor) (fs : Fs) :
    ∀ f ∈ scanFiles fp fs,
      (f.type = "aurora" ∨ f.type = "cloud" ∨ f.type = "spaceweather" ∨ f.type = "snapshot") ∧
      (f.type = "snapshot" → f.day = none ∧ f.thumbnail_path = none) ∧
      (f.type = "spaceweather" → f.thumbnail_path = none) ∧
      (∀ d, f.day = some d → d ∈ DAYS_ORDER ∧ f.type ≠ "snapshot") := by
  intro f hf
  unfold scanFiles at hf
  cases hl : fs.listing with
  | none => rw [hl] at hf; cases hf
  | some entries =>
    rw [hl] at hf
    rcases mkScan_mem fp fs entries entries f hf with ⟨e, he, hfl, t, sz, hdft, hsz, rfl⟩
    have htype : (mkMediaFile fp fs entries e t sz).type = t := rfl
    refine ⟨?_, ?_, ?_, ?_⟩
    · rw [htype]
      rcases dft_shapes e.name with h | h | h | h | h <;> rw [h] at hdft
      · cases hdft
      · exact Or.inl (Option.some.inj hdft).symm
      · exact Or.inr (Or.inl (Option.some.inj hdft).symm)
      · exact Or.inr (Or.inr (Or.inl (Option.some.inj hdft).symm))
      · exact Or.inr (Or.inr (Or.inr (Option.some.inj hdft).symm))
    · intro hsnap
      rw [htype] at hsnap
      subst hsnap
      exact ⟨by simp [mkMediaFile], by simp [mkMediaFile]⟩
    · intro hsw
      rw [htype] at hsw
      subst hsw
      simp [mkMediaFile]
    · intro d hd
      by_cases hts : t = "snapshot"
      · subst hts
        simp [mkMediaFile] at hd
      · have hb : (t == "snapshot") = false := by
          cases hb2 : (t == "snapshot")
          · rfl
          · exact absurd (eq_of_beq hb2) hts
        have hday : (mkMediaFile fp fs entries e t sz).day = parseDayFromFilename e.name := by
          simp [mkMediaFile, hb]
        rw [hday] at hd
        refine ⟨parseDay_mem _ _ hd, ?_⟩
        rw [htype]
        exact hts

/-- Restricting the per-day non-snapshot files to one non-snapshot kind is
the same as filtering for that kind and day directly. -/
theorem filter_slot_congr (files : List MediaFile) (d : String) (kind : String)
    (hk : kind ≠ "snapshot") :
    ((files.filter (fun f => !(f.type == "snapshot") && f.day == some d)).filter
      (fun f => f.type == kind)) =
    files.filter (fun f => f.type == kind && f.day == some d) := by
  rw [List.filter_filter]
  apply List.filter_congr
  intro f _
  by_cases ht : (f.type == kind) = true
  · have hts : (f.type == "snapshot") = false := by
      cases hb2 : (f.type == "snapshot")
      · rfl
      · exact absurd (eq_of_beq hb2) (by rw [eq_of_beq ht]; exact hk)
    rw [ht, hts]
    simp
  · have ht' : (f.type == kind) = false := by
      cases hb2 : (f.type == kind)
      · rfl
      · exact absurd hb2 ht
    rw [ht']
    simp

/-- C5: per weekday the grouping keeps at most one file per kind — each
day's slot holds exactly the LAST scanned file of that (kind, day), so a
later duplicate silently overwrites an earlier one; a `DayMedia` exists in
the output exactly for the weekdays to which at least one classified
aurora/cloud/spaceweather file was mapped; day keys are unique; and the
concrete two-duplicate directory yields exactly one aurora entry for Monday,
holding the second file. -/
theorem at_most_one_per_slot :
    (∀ (fp : FileProcessor) (fs : Fs) (ref : DateTime) (d : String) (dm : DayMedia),
      (d, dm) ∈ (groupFilesByDay (scanFiles fp fs) ref).1 →
      dm.aurora_video =
        ((scanFiles fp fs).filter (fun f => f.type == "aurora" && f.day == some d)).getLast? ∧
      dm.cloud_video =
        ((scanFiles fp fs).filter (fun f => f.type == "cloud" && f.day == some d)).getLast? ∧
      dm.spaceweather_image =
        ((scanFiles fp fs).filter
          (fun f => f.type == "spaceweather" && f.day == some d)).getLast?) ∧
    (∀ (fp : FileProcessor) (fs : Fs) (ref : DateTime) (d : String),
      (∃ dm, (d, dm) ∈ (groupFilesByDay (scanFiles fp fs) ref).1) ↔
        (d ∈ DAYS_ORDER ∧ ∃ f ∈ scanFiles fp fs, f.day = some d ∧
          (f.type = "aurora" ∨ f.type = "cloud" ∨ f.type = "spaceweather"))) ∧
    (∀ (fp : FileProcessor) (fs : Fs) (ref : DateTime),
      ((groupFilesByDay (scanFiles fp fs) ref).1.map (fun kv => kv.1)).Nodup) ∧
    (groupFilesByDay (scanFiles fpOutside fsDup) refWed).1 =
      [("Monday",
        DayMedia.mk (DateTime.mk (toordinal 2024 6 10) 0) "Monday"
          (some (MediaFile.mk (PyPath.mk true ["data", "m", "AuroraCam_Monday.mp4"])
            "aurora" (some "Monday") 200 7 none))
          none none)] := by
  refine ⟨?_, ?_, ?_, by decide⟩
  · intro fp fs ref d dm hmem
    rw [groupFilesByDay_eq] at hmem
    rcases List.mem_map.mp hmem with ⟨d', hd', heq⟩
    cases heq
    refine ⟨?_, ?_, ?_⟩
    · rw [foldSetSlot_aurora, filter_slot_congr _ _ _ (by decide), Option.or_none]
    · rw [foldSetSlot_cloud, filter_slot_congr _ _ _ (by decide), Option.or_none]
    · rw [foldSetSlot_spaceweather, filter_slot_congr _ _ _ (by decide), Option.or_none]
  · intro fp fs ref d
    rw [groupFilesByDay_eq]
    constructor
    · rintro ⟨dm, hmem⟩
      rcases List.mem_map.mp hmem with ⟨d', hd', heq⟩
      cases heq
      rcases List.mem_filter.mp hd' with ⟨hdays, hany⟩
      rcases List.any_eq_true.mp hany with ⟨f, hfmem, hfday⟩
      have hfday' : f.day = some d := eq_of_beq hfday
      rcases scanFiles_wf fp fs f hfmem with ⟨hshapes, -, -, hdayprop⟩
      rcases hdayprop d hfday' with ⟨-, hnotsnap⟩
      refine ⟨hdays, f, hfmem, hfday', ?_⟩
      rcases hshapes with h | h | h | h
      · exact Or.inl h
      · exact Or.inr (Or.inl h)
      · exact Or.inr (Or.inr h)
      · exact absurd h hnotsnap
    · rintro ⟨hdays, f, hfmem, hfday, -⟩
      refine ⟨_, List.mem_map.mpr ⟨d, ?_, rfl⟩⟩
      refine List.mem_filter.mpr ⟨hdays, List.any_eq_true.mpr ⟨f, hfmem, ?_⟩⟩
      rw [hfday]
      exact beq_self_eq_true _
  · intro fp fs ref
    rw [groupFilesByDay_eq]
    dsimp only
    rw [List.map_map]
    have hcomp : ((fun kv : String × DayMedia => kv.1) ∘
        (fun d => (d,
          ((scanFiles fp fs).filter
            (fun f => !(f.type == "snapshot") && f.day == some d)).foldl
            (fun v f => setSlot f v)
            (DayMedia.mk (getDateForDay d ref) d none none none)))) = fun d => d := by
      funext d
      rfl
    rw [hcomp, List.map_id']
    exact List.Nodup.filter _ (by decide)

/-- C5 witness: the concrete duplicated-aurora directory, instantiating the
last-write-wins slot characterization. -/
theorem at_most_one_per_slot_witness :
    ("Monday",
      DayMedia.mk (DateTime.mk (toordinal 2024 6 10) 0) "Monday"
        (some (MediaFile.mk (PyPath.mk true ["data", "m", "AuroraCam_Monday.mp4"])
          "aurora" (some "Monday") 200 7 none))
        none none) ∈ (groupFilesByDay (scanFiles fpOutside fsDup) refWed).1 ∧
    (DayMedia.mk (DateTime.mk (toordinal 2024 6 10) 0) "Monday"
        (some (MediaFile.mk (PyPath.mk true ["data", "m", "AuroraCam_Monday.mp4"])
          "aurora" (some "Monday") 200 7 none))
        none none).aurora_video =
      ((scanFiles fpOutside fsDup).filter
        (fun f => f.type == "aurora" && f.day == some "Monday")).getLast? :=
  ⟨by decide,
    (at_most_one_per_slot.1 fpOutside fsDup refWed "Monday" _ (by decide)).1⟩

/-! Sorting lemmas for `_sort_days_by_recency`. -/

/-- `dtLtB` is irreflexive-asymmetric. -/
theorem dtLtB_asymm (a b : DateTime) (h : dtLtB a b = true) : dtLtB b a = false := by
  unfold dtLtB at h ⊢
  simp only [Bool.or_eq_true, Bool.and_eq_true, decide_eq_true_eq, beq_iff_eq] at h
  simp only [Bool.or_eq_false_iff, Bool.and_eq_false_iff, decide_eq_false_iff_not,
    beq_eq_false_iff_ne]
  omega

/-- If `y < x` and `z` is not above `y`, then `z` is not above `x`. -/
theorem dtLtB_step (x y z : DateTime) (h1 : dtLtB y x = true) (h2 : dtLtB y z = false) :
    dtLtB x z = false := by
  unfold dtLtB at h1 h2 ⊢
  simp only [Bool.or_eq_true, Bool.and_eq_true, decide_eq_true_eq, beq_iff_eq] at h1
  simp only [Bool.or_eq_false_iff, Bool.and_eq_false_iff, decide_eq_false_iff_not,
    beq_eq_false_iff_ne] at h2 ⊢
  omega

/-- Totality: two comparable instants not below each other in one direction
are ordered the other way or equal. -/
theorem dtLtB_total (a b : DateTime) (h : dtLtB a b = false) (hne : a ≠ b) :
    dtLtB b a = true := by
  unfold dtLtB at h ⊢
  simp only [Bool.or_eq_false_iff, Bool.and_eq_false_iff, decide_eq_false_iff_not,
    beq_eq_false_iff_ne] at h
  simp only [Bool.or_eq_true, Bool.and_eq_true, decide_eq_true_eq, beq_iff_eq]
  have hcomp : a.ord ≠ b.ord ∨ a.tod ≠ b.tod := by
    by_contra hb
    push_neg at hb
    exact hne (by cases a; cases b; simp_all)
  omega

/-- Inserting into the descending list is a permutation of consing. -/
theorem insertByDateDesc_perm (x : String × DayMedia) (l : List (String × DayMedia)) :
    (insertByDateDesc x l).Perm (x :: l) := by
  induction l with
  | nil => exact List.Perm.refl _
  | cons y ys ih =>
    unfold insertByDateDesc
    by_cases hc : dtLtB y.2.date x.2.date = true
    · rw [if_pos hc]
    · rw [if_neg hc]
      exact (List.Perm.cons y ih).trans (List.Perm.swap x y ys)

/-- Inserting into a descending-sorted list keeps it descending-sorted. -/
theorem insertByDateDesc_sorted (x : String × DayMedia) (l : List (String × DayMedia))
    (hl : l.Pairwise (fun a b => dtLtB a.2.date b.2.date = false)) :
    (insertByDateDesc x l).Pairwise (fun a b => dtLtB a.2.date b.2.date = false) := by
  induction l with
  | nil => simp [insertByDateDesc]
  | cons y ys ih =>
    rcases List.pairwise_cons.mp hl with ⟨hy, hys⟩
    unfold insertByDateDesc
    by_cases hc : dtLtB y.2.date x.2.date = true
    · rw [if_pos hc]
      refine List.pairwise_cons.mpr ⟨?_, hl⟩
      intro z hz
      rcases List.mem_cons.mp hz with rfl | hz'
      · exact dtLtB_asymm _ _ hc
      · exact dtLtB_step _ _ _ hc (hy z hz')
    · rw [if_neg hc]
      refine List.pairwise_cons.mpr ⟨?_, ih hys⟩
      intro z hz
      have hz2 := (insertByDateDesc_perm x ys).mem_iff.mp hz
      rcases List.mem_cons.mp hz2 with rfl | hz'
      · cases hb : dtLtB y.2.date z.2.date
        · rfl
        · exact absurd hb hc
      · exact hy z hz'

/-- The insertion fold is a permutation of its input. -/
theorem foldInsert_perm (l : List (String × DayMedia)) :
    ∀ acc, (l.foldl (fun a y => insertByDateDesc y a) acc).Perm (l ++ acc) := by
  induction l with
  | nil => intro acc; simp
  | cons y ys ih =>
    intro acc
    rw [List.foldl_cons]
    refine (ih (insertByDateDesc y acc)).trans ?_
    refine (List.Perm.append_left ys (insertByDateDesc_perm y acc)).trans ?_
    exact List.perm_middle

/-- The insertion fold of any list is descending-sorted. -/
theorem foldInsert_sorted (l : List (String × DayMedia)) :
    ∀ acc, acc.Pairwise (fun a b => dtLtB a.2.date b.2.date = false) →
      (l.foldl (fun a y => insertByDateDesc y a) acc).Pairwise
        (fun a b => dtLtB a.2.date b.2.date = false) := by
  induction l with
  | nil => intro acc h; exact h
  | cons y ys ih =>
    intro acc h
    rw [List.foldl_cons]
    exact ih _ (insertByDateDesc_sorted y acc h)

/-- `_sort_days_by_recency` permutes the day values. -/
theorem sortDaysByRecency_perm (days : List (String × DayMedia)) :
    (sortDaysByRecency days).Perm
      ((days.filter (fun kv => kv.1 != "_snapshot")).map (fun kv => kv.2)) := by
  unfold sortDaysByRecency
  refine List.Perm.map _ ?_
  have h := foldInsert_perm (days.filter (fun kv => kv.1 != "_snapshot")) []
  simpa using h

/-- `_sort_days_by_recency` sorts descending (non-strictly) by date. -/
theorem sortDaysByRecency_sorted (days : List (String × DayMedia)) :
    (sortDaysByRecency days).Pairwise (fun a b => dtLtB a.date b.date = false) := by
  unfold sortDaysByRecency
  rw [List.pairwise_map]
  exact foldInsert_sorted _ [] (by simp)

/-- Distinct canonical day names resolve to distinct semantic dates (within
one reference instant): their indices differ, hence their days-back differ
modulo 7 within one week. -/
theorem getDateForDay_ord_inj (ref : DateTime) (d1 d2 : String)
    (h1 : d1 ∈ DAYS_ORDER) (h2 : d2 ∈ DAYS_ORDER) (hne : d1 ≠ d2) :
    (getDateForDay d1 ref).ord ≠ (getDateForDay d2 ref).ord := by
  have hidx : DAYS_ORDER.indexOf d1 ≠ DAYS_ORDER.indexOf d2 :=
    fun h => hne ((List.indexOf_inj h1 h2).1 h)
  have hb1 : DAYS_ORDER.indexOf d1 < 7 := by
    simpa [DAYS_ORDER] using List.indexOf_lt_length.2 h1
  have hb2 : DAYS_ORDER.indexOf d2 < 7 := by
    simpa [DAYS_ORDER] using List.indexOf_lt_length.2 h2
  have hi : ((DAYS_ORDER.indexOf d1 : Nat) : Int) ≠ ((DAYS_ORDER.indexOf d2 : Nat) : Int) := by
    exact_mod_cast hidx
  have hc1 : ((DAYS_ORDER.indexOf d1 : Nat) : Int) < 7 := by exact_mod_cast hb1
  have hc2 : ((DAYS_ORDER.indexOf d2 : Nat) : Int) < 7 := by exact_mod_cast hb2
  have hn1 : (0 : Int) ≤ ((DAYS_ORDER.indexOf d1 : Nat) : Int) := Int.ofNat_nonneg _
  have hn2 : (0 : Int) ≤ ((DAYS_ORDER.indexOf d2 : Nat) : Int) := Int.ofNat_nonneg _
  unfold getDateForDay weekdayOf
  dsimp only
  omega

/-- The day values produced by grouping have pairwise distinct dates. -/
theorem group_dates_distinct (files : List MediaFile) (ref : DateTime) :
    ((groupFilesByDay files ref).1.map (fun kv => kv.2)).Pairwise
      (fun a b : DayMedia => a.date.ord ≠ b.date.ord) := by
  rw [groupFilesByDay_eq]
  dsimp only
  rw [List.map_map, List.pairwise_map]
  have hnodup : (DAYS_ORDER.filter
      (fun d => files.any (fun f => f.day == some d))).Pairwise (fun a b : String => a ≠ b) :=
    List.Nodup.filter _ (by decide)
  refine List.Pairwise.imp_of_mem ?_ hnodup
  intro a b ha hb hne
  have ha' : a ∈ DAYS_ORDER := (List.mem_filter.mp ha).1
  have hb' : b ∈ DAYS_ORDER := (List.mem_filter.mp hb).1
  show ((files.filter _).foldl (fun v f => setSlot f v)
      (DayMedia.mk (getDateForDay a ref) a none none none)).date.ord ≠
    ((files.filter _).foldl (fun v f => setSlot f v)
      (DayMedia.mk (getDateForDay b ref) b none none none)).date.ord
  rw [(foldSetSlot_date _ _).1, (foldSetSlot_date _ _).1]
  exact getDateForDay_ord_inj ref a b ha' hb' hne

/-- C4: the output sequence of day groups is strictly sorted by calendar
date, most recent first, and no two groups share a calendar date. -/
theorem ordering_strict_desc (fp : FileProcessor) (fs : Fs) :
    ((processFiles fp fs).1).Pairwise
      (fun a b => dtLtB b.date a.date = true ∧ b.date ≠ a.date) := by
  simp only [processFiles]
  by_cases hempty : (scanFiles fp fs).isEmpty = true
  · rw [if_pos hempty]
    exact List.Pairwise.nil
  · rw [if_neg hempty]
    dsimp only
    rw [List.pairwise_map]
    have hsorted := sortDaysByRecency_sorted (groupFilesByDay (scanFiles fp fs) fs.nowRef).1
    have hperm := sortDaysByRecency_perm (groupFilesByDay (scanFiles fp fs) fs.nowRef).1
    have hdist0 := group_dates_distinct (scanFiles fp fs) fs.nowRef
    have hdistF : (((groupFilesByDay (scanFiles fp fs) fs.nowRef).1.filter
        (fun kv => kv.1 != "_snapshot")).map (fun kv => kv.2)).Pairwise
        (fun a b : DayMedia => a.date.ord ≠ b.date.ord) :=
      hdist0.sublist (List.Sublist.map _ (List.filter_sublist _))
    have hdist : (sortDaysByRecency
        (groupFilesByDay (scanFiles fp fs) fs.nowRef).1).Pairwise
        (fun a b : DayMedia => a.date.ord ≠ b.date.ord) :=
      (hperm.pairwise_iff (fun h => Ne.symm h)).mpr hdistF
    have hcomb := hsorted.and hdist
    refine hcomb.imp ?_
    rintro a b ⟨hle, hne⟩
    have hne' : a.date ≠ b.date := fun hh => hne (congrArg DateTime.ord hh)
    exact ⟨dtLtB_total _ _ hle hne', fun hh => hne (congrArg DateTime.ord hh.symm)⟩

/-- The last element of a list is a member. -/
theorem mem_of_getLast?_eq {α : Type} {l : List α} {a : α} (h : l.getLast? = some a) :
    a ∈ l := by
  cases l with
  | nil => cases h
  | cons b bs =>
    have hne : b :: bs ≠ [] := by simp
    rw [List.getLast?_eq_getLast (b :: bs) hne] at h
    cases h
    exact List.getLast_mem hne

/-- Slot contents of any grouped day: the last file of that (kind, day) in
scan order. -/
theorem group_slots (files : List MediaFile) (ref : DateTime) (d : String) (dm : DayMedia)
    (hmem : (d, dm) ∈ (groupFilesByDay files ref).1) :
    dm.aurora_video =
      (files.filter (fun f => f.type == "aurora" && f.day == some d)).getLast? ∧
    dm.cloud_video =
      (files.filter (fun f => f.type == "cloud" && f.day == some d)).getLast? ∧
    dm.spaceweather_image =
      (files.filter (fun f => f.type == "spaceweather" && f.day == some d)).getLast? := by
  rw [groupFilesByDay_eq] at hmem
  rcases List.mem_map.mp hmem with ⟨d', hd', heq⟩
  cases heq
  refine ⟨?_, ?_, ?_⟩
  · rw [foldSetSlot_aurora, filter_slot_congr _ _ _ (by decide), Option.or_none]
  · rw [foldSetSlot_cloud, filter_slot_congr _ _ _ (by decide), Option.or_none]
  · rw [foldSetSlot_spaceweather, filter_slot_congr _ _ _ (by decide), Option.or_none]

/-- The thumbnail rewriting changes nothing but the thumbnail. -/
theorem normalizeMedia_shape (fp : FileProcessor) (m : Option MediaFile) (f : MediaFile)
    (h : normalizeMedia fp m = some f) :
    ∃ f', m = some f' ∧ f.type = f'.type ∧ f.day = f'.day ∧ f.path = f'.path ∧
      f.file_date = f'.file_date ∧ f.size = f'.size := by
  cases m with
  | none => cases h
  | some f' =>
    refine ⟨f', rfl, ?_⟩
    simp only [normalizeMedia] at h
    cases ht : f'.thumbnail_path with
    | none =>
      rw [ht] at h
      cases h
      exact ⟨rfl, rfl, rfl, rfl, rfl⟩
    | some tp =>
      rw [ht] at h
      cases h
      exact ⟨rfl, rfl, rfl, rfl, rfl⟩

/-- Every day of the final output is the thumbnail-rewritten copy of a
grouped day. -/
theorem processFiles_day_mem (fp : FileProcessor) (fs : Fs) (dm : DayMedia)
    (hdm : dm ∈ (processFiles fp fs).1) :
    ∃ d dm', (d, dm') ∈ (groupFilesByDay (scanFiles fp fs) fs.nowRef).1 ∧
      dm = normalizeDay fp dm' := by
  simp only [processFiles] at hdm
  by_cases hempty : (scanFiles fp fs).isEmpty = true
  · rw [if_pos hempty] at hdm
    simp at hdm
  · rw [if_neg hempty] at hdm
    dsimp only at hdm
    rcases List.mem_map.mp hdm with ⟨dm', hdm', rfl⟩
    have hperm := sortDaysByRecency_perm (groupFilesByDay (scanFiles fp fs) fs.nowRef).1
    have hdm2 := hperm.mem_iff.mp hdm'
    rcases List.mem_map.mp hdm2 with ⟨kv, hkv, rfl⟩
    have hkv' : kv ∈ (groupFilesByDay (scanFiles fp fs) fs.nowRef).1 :=
      List.mem_of_mem_filter hkv
    exact ⟨kv.1, kv.2, by simpa using hkv', rfl⟩

/-- C6: the returned snapshot is the last snapshot encountered in scan order
(at most one per run); it is of snapshot kind and carries no weekday; no
snapshot ever sits inside a day group's slots; and the concrete directory
holding `snapshot.jpg` next to classified day files yields both a non-empty
day sequence and a present snapshot as the separate second component. -/
theorem snapshot_exclusivity :
    (∀ (fp : FileProcessor) (fs : Fs), (processFiles fp fs).2 =
      ((scanFiles fp fs).filter (fun f => f.type == "snapshot")).getLast?) ∧
    (∀ (fp : FileProcessor) (fs : Fs) (f : MediaFile), (processFiles fp fs).2 = some f →
      f.type = "snapshot" ∧ f.day = none) ∧
    (∀ (fp : FileProcessor) (fs : Fs), ∀ dm ∈ (processFiles fp fs).1, ∀ f : MediaFile,
      dm.aurora_video = some f ∨ dm.cloud_video = some f ∨ dm.spaceweather_image = some f →
      f.type ≠ "snapshot") ∧
    (processFiles fpOutside fsSnapDays).1 ≠ [] ∧
    ((processFiles fpOutside fsSnapDays).2).isSome = true := by
  have ha : ∀ (fp : FileProcessor) (fs : Fs), (processFiles fp fs).2 =
      ((scanFiles fp fs).filter (fun f => f.type == "snapshot")).getLast? := by
    intro fp fs
    simp only [processFiles]
    by_cases hempty : (scanFiles fp fs).isEmpty = true
    · rw [if_pos hempty]
      have hscan : scanFiles fp fs = [] := by simpa using hempty
      rw [hscan]
      rfl
    · rw [if_neg hempty]
      dsimp only
      rw [groupFilesByDay_eq]
  refine ⟨ha, ?_, ?_, by decide, by decide⟩
  · intro fp fs f h
    rw [ha fp fs] at h
    rcases List.mem_filter.mp (mem_of_getLast?_eq h) with ⟨hmem, hsnap⟩
    have hsnap' : f.type = "snapshot" := eq_of_beq hsnap
    rcases scanFiles_wf fp fs f hmem with ⟨-, hsnapprop, -, -⟩
    exact ⟨hsnap', (hsnapprop hsnap').1⟩
  · intro fp fs dm hdm f hslot
    rcases processFiles_day_mem fp fs dm hdm with ⟨d, dm', hmem, rfl⟩
    have hslots := group_slots (scanFiles fp fs) fs.nowRef d dm' hmem
    rcases hslot with h | h | h
    · rcases normalizeMedia_shape fp dm'.aurora_video f h with ⟨f', hf', htype, -⟩
      rw [hslots.1] at hf'
      rcases List.mem_filter.mp (mem_of_getLast?_eq hf') with ⟨-, hcond⟩
      have hcond' : (f'.type == "aurora") = true ∧ (f'.day == some d) = true := by
        simpa [Bool.and_eq_true] using hcond
      rw [htype, eq_of_beq hcond'.1]
      decide
    · rcases normalizeMedia_shape fp dm'.cloud_video f h with ⟨f', hf', htype, -⟩
      rw [hslots.2.1] at hf'
      rcases List.mem_filter.mp (mem_of_getLast?_eq hf') with ⟨-, hcond⟩
      have hcond' : (f'.type == "cloud") = true ∧ (f'.day == some d) = true := by
        simpa [Bool.and_eq_true] using hcond
      rw [htype, eq_of_beq hcond'.1]
      decide
    · rcases normalizeMedia_shape fp dm'.spaceweather_image f h with ⟨f', hf', htype, -⟩
      rw [hslots.2.2] at hf'
      rcases List.mem_filter.mp (mem_of_getLast?_eq hf') with ⟨-, hcond⟩
      have hcond' : (f'.type == "spaceweather") = true ∧ (f'.day == some d) = true := by
        simpa [Bool.and_eq_true] using hcond
      rw [htype, eq_of_beq hcond'.1]
      decide

/-- C6 witness: the concrete mixed directory, instantiating the
no-weekday-on-snapshot component at its returned snapshot. -/
theorem snapshot_exclusivity_witness :
    (processFiles fpOutside fsSnapDays).2 =
      some (MediaFile.mk (PyPath.mk true ["data", "m", "snapshot.jpg"])
        "snapshot" none 100 2 none) ∧
    (MediaFile.mk (PyPath.mk true ["data", "m", "snapshot.jpg"])
        "snapshot" none 100 2 none : MediaFile).type = "snapshot" ∧
    (MediaFile.mk (PyPath.mk true ["data", "m", "snapshot.jpg"])
        "snapshot" none 100 2 none : MediaFile).day = none :=
  ⟨by decide, snapshot_exclusivity.2.1 fpOutside fsSnapDays _ (by decide)⟩

/-- A run of entries that are not regular files or not classifiable
contributes nothing to the scan. -/
theorem mkScan_all_skipped (fp : FileProcessor) (fs : Fs) (entries : List Entry) :
    ∀ l : List Entry,
      (∀ e ∈ l, e.isFileFlag = false ∨ determineFileType e.name = none) →
      mkScan fp fs entries l = [] := by
  intro l
  induction l with
  | nil => intro h; rfl
  | cons e rest ih =>
    intro h
    have heq : mkScan fp fs entries (e :: rest) = mkScan fp fs entries rest := by
      rcases h e (List.mem_cons_self e rest) with he | he
      · simp [mkScan, he]
      · cases hfl : e.isFileFlag
        · simp [mkScan, hfl]
        · simp [mkScan, hfl, he]
    rw [heq]
    exact ih (fun e' he' => h e' (List.mem_cons_of_mem e he'))

/-- C9: a directory whose listing raises, an empty directory, and a directory
with zero classifiable entries all produce exactly `([], None)` from
`process_files`; no exception escapes (the embedding of every failure path is
a total function into valid results). -/
theorem empty_and_fault_results :
    (∀ (fp : FileProcessor) (fs : Fs), fs.listing = none →
      processFiles fp fs = ([], none)) ∧
    (∀ (fp : FileProcessor) (fs : Fs), fs.listing = some [] →
      processFiles fp fs = ([], none)) ∧
    (∀ (fp : FileProcessor) (fs : Fs) (entries : List Entry), fs.listing = some entries →
      (∀ e ∈ entries, e.isFileFlag = false ∨ determineFileType e.name = none) →
      processFiles fp fs = ([], none)) := by
  refine ⟨?_, ?_, ?_⟩
  · intro fp fs h
    have hscan : scanFiles fp fs = [] := by
      unfold scanFiles
      rw [h]
    simp only [processFiles]
    rw [hscan]
    rfl
  · intro fp fs h
    have hscan : scanFiles fp fs = [] := by
      unfold scanFiles
      rw [h]
      rfl
    simp only [processFiles]
    rw [hscan]
    rfl
  · intro fp fs entries hl hall
    have hscan : scanFiles fp fs = [] := by
      unfold scanFiles
      rw [hl]
      exact mkScan_all_skipped fp fs entries entries hall
    simp only [processFiles]
    rw [hscan]
    rfl

/-- C9 witness: the unlistable directory, the empty directory, and the
directory with only a text file. -/
theorem empty_and_fault_results_witness :
    fsListFail.listing = none ∧ processFiles fpOutside fsListFail = ([], none) ∧
    fsEmptyDir.listing = some [] ∧ processFiles fpOutside fsEmptyDir = ([], none) ∧
    processFiles fpOutside fsUnclass = ([], none) :=
  ⟨rfl, empty_and_fault_results.1 fpOutside fsListFail rfl,
   rfl, empty_and_fault_results.2.1 fpOutside fsEmptyDir rfl,
   empty_and_fault_results.2.2 fpOutside fsUnclass [entUnclass] rfl
     (fun e he => by
        rcases List.mem_singleton.mp he with rfl
        exact Or.inr (by decide))⟩

/-- C8 counterexample: in the concrete directory whose first classified
entry's `stat()` raises, the following classifiable `CloudCam_Tuesday.mp4`
entry is NOT in the scan output — the scan aborts instead of continuing with
the remaining entries. -/
theorem scan_continue_counterexample :
    scanFiles fpOutside fsStatFail = [] ∧
    entCloud ∈ [entStatFail, entCloud] ∧
    entCloud.isFileFlag = true ∧
    determineFileType entCloud.name = some "cloud" ∧
    entCloud.size = some 3 := by
  refine ⟨?_, ?_, ?_, ?_, ?_⟩ <;> decide

/-- C8 (amended): when the size `stat()` of a classified entry raises, the
`OSError` propagates to the `try/except` around the whole loop: the entries
scanned before the failure are kept and returned, the failing entry and all
remaining entries are omitted, and nothing is raised to the caller. -/
theorem scan_abort_amended :
    (∀ (fp : FileProcessor) (fs : Fs) (entries : List Entry) (e : Entry) (rest : List Entry)
      (t : String), e.isFileFlag = true → determineFileType e.name = some t →
      e.size = none → mkScan fp fs entries (e :: rest) = []) ∧
    (∀ (fp : FileProcessor) (fs : Fs) (entries : List Entry) (pre : List Entry) (e : Entry)
      (rest : List Entry) (t : String),
      (∀ e' ∈ pre, e'.isFileFlag = true →
        (∃ t', determineFileType e'.name = some t') → e'.size ≠ none) →
      e.isFileFlag = true → determineFileType e.name = some t → e.size = none →
      mkScan fp fs entries (pre ++ e :: rest) = mkScan fp fs entries pre) := by
  have habort : ∀ (fp : FileProcessor) (fs : Fs) (entries : List Entry) (e : Entry)
      (rest : List Entry) (t : String), e.isFileFlag = true → determineFileType e.name = some t →
      e.size = none → mkScan fp fs entries (e :: rest) = [] := by
    intro fp fs entries e rest t hfl hdft hsz
    simp [mkScan, hfl, hdft, hsz]
  refine ⟨habort, ?_⟩
  intro fp fs entries pre
  induction pre with
  | nil =>
    intro e rest t hpre hfl hdft hsz
    rw [List.nil_append]
    exact habort fp fs entries e rest t hfl hdft hsz
  | cons p pre' ih =>
    intro e rest t hpre hfl hdft hsz
    rw [List.cons_append]
    have hpre' : ∀ e' ∈ pre', e'.isFileFlag = true →
        (∃ t', determineFileType e'.name = some t') → e'.size ≠ none :=
      fun e' he' => hpre e' (List.mem_cons_of_mem p he')
    cases hpfl : p.isFileFlag with
    | false =>
      have h1 : mkScan fp fs entries (p :: (pre' ++ e :: rest)) =
          mkScan fp fs entries (pre' ++ e :: rest) := by simp [mkScan, hpfl]
      have h2 : mkScan fp fs entries (p :: pre') = mkScan fp fs entries pre' := by
        simp [mkScan, hpfl]
      rw [h1, h2]
      exact ih e rest t hpre' hfl hdft hsz
    | true =>
      cases hpdft : determineFileType p.name with
      | none =>
        have h1 : mkScan fp fs entries (p :: (pre' ++ e :: rest)) =
            mkScan fp fs entries (pre' ++ e :: rest) := by simp [mkScan, hpfl, hpdft]
        have h2 : mkScan fp fs entries (p :: pre') = mkScan fp fs entries pre' := by
          simp [mkScan, hpfl, hpdft]
        rw [h1, h2]
        exact ih e rest t hpre' hfl hdft hsz
      | some tp =>
        cases hpsz : p.size with
        | none =>
          exact absurd hpsz
            (hpre p (List.mem_cons_self p pre') hpfl ⟨tp, hpdft⟩)
        | some szp =>
          have h1 : mkScan fp fs entries (p :: (pre' ++ e :: rest)) =
              mkMediaFile fp fs entries p tp szp ::
                mkScan fp fs entries (pre' ++ e :: rest) := by
            simp [mkScan, hpfl, hpdft, hpsz]
          have h2 : mkScan fp fs entries (p :: pre') =
              mkMediaFile fp fs entries p tp szp :: mkScan fp fs entries pre' := by
            simp [mkScan, hpfl, hpdft, hpsz]
          rw [h1, h2, ih e rest t hpre' hfl hdft hsz]

/-- C8 witness: the failing entry aborts the concrete two-entry scan right at
the start, so the result equals the scan of the empty prefix. -/
theorem scan_abort_amended_witness :
    entStatFail.isFileFlag = true ∧ determineFileType entStatFail.name = some "aurora" ∧
    entStatFail.size = none ∧
    mkScan fpOutside fsStatFail [entStatFail, entCloud] ([] ++ entStatFail :: [entCloud]) =
      mkScan fpOutside fsStatFail [entStatFail, entCloud] [] :=
  ⟨by decide, by decide, by decide,
    scan_abort_amended.2 fpOutside fsStatFail [entStatFail, entCloud] [] entStatFail
      [entCloud] "aurora" (fun e' he' => by cases he') (by decide) (by decide) (by decide)⟩

/-- C10 counterexample: a classified file whose mtime lookup raises IS
dropped from the scan when its size `stat()` also raises (the realistic case
for a persistent `OSError`, e.g. the file was deleted mid-scan), contrary to
the claim that such a file is never dropped. -/
theorem mtime_fallback_counterexample :
    entBothFail.mtime = none ∧
    entBothFail.isFileFlag = true ∧
    determineFileType entBothFail.name = some "aurora" ∧
    scanFiles fpOutside fsBothFail = [] := by
  refine ⟨?_, ?_, ?_, ?_⟩ <;> decide

/-- C10 (amended): when the mtime lookup of a classified entry raises but
the separate size `stat()` succeeds, `file_date` falls back to the current
UTC instant and the file is still classified and included like any other
file; when the size `stat()` also raises, the entry is dropped and the scan
stops. -/
theorem mtime_fallback_amended :
    (∀ (fp : FileProcessor) (fs : Fs) (entries : List Entry) (e : Entry) (rest : List Entry)
      (t : String) (sz : Nat), e.isFileFlag = true → determineFileType e.name = some t →
      e.mtime = none → e.size = some sz →
      mkScan fp fs entries (e :: rest) =
        mkMediaFile fp fs entries e t sz :: mkScan fp fs entries rest ∧
      (mkMediaFile fp fs entries e t sz).file_date = fs.nowUtc) ∧
    (∀ (fp : FileProcessor) (fs : Fs) (entries : List Entry) (e : Entry) (rest : List Entry)
      (t : String), e.isFileFlag = true → determineFileType e.name = some t →
      e.mtime = none → e.size = none → mkScan fp fs entries (e :: rest) = []) := by
  constructor
  · intro fp fs entries e rest t sz hfl hdft hm hsz
    constructor
    · simp [mkScan, hfl, hdft, hsz]
    · show getFileDate fs e = fs.nowUtc
      unfold getFileDate
      rw [hm]
  · intro fp fs entries e rest t hfl hdft hm hsz
    simp [mkScan, hfl, hdft, hsz]

/-- C10 witness: the concrete single-entry directory whose only file fails
its mtime lookup but not its size lookup: the file is kept with the
current-UTC fallback date. -/
theorem mtime_fallback_amended_witness :
    entMtimeFail.mtime = none ∧ entMtimeFail.size = some 5 ∧
    (mkScan fpOutside fsMtimeFail [entMtimeFail] (entMtimeFail :: []) =
      mkMediaFile fpOutside fsMtimeFail [entMtimeFail] entMtimeFail "aurora" 5 ::
        mkScan fpOutside fsMtimeFail [entMtimeFail] [] ∧
    (mkMediaFile fpOutside fsMtimeFail [entMtimeFail] entMtimeFail "aurora" 5).file_date =
      fsMtimeFail.nowUtc) :=
  ⟨by decide, by decide,
    mtime_fallback_amended.1 fpOutside fsMtimeFail [entMtimeFail] entMtimeFail [] "aurora" 5
      (by decide) (by decide) (by decide) (by decide)⟩

/-! Path lemmas for the thumbnail rewriting. -/

/-- The final component of a path extended by one component. -/
theorem PyPath.child_name (p : PyPath) (s : String) : (p.child s).name = s := by
  unfold PyPath.child PyPath.name
  dsimp only
  rw [List.getLast?_concat]
  rfl

/-- How the rewriting treats a thumbnail found inside the target directory:
relative target → bare filename (relative to the target); absolute target
under the project root → re-rooted at the project root; absolute target not
under the project root → bare filename. -/
theorem normalizeThumb_child (target : PyPath) (projRoot : List String) (tn : String) :
    (target.absFlag = true → List.IsPrefix projRoot (target.comps ++ [tn]) →
      normalizeThumb (FileProcessor.mk target projRoot) (target.child tn) =
        PyPath.mk false ((target.comps ++ [tn]).drop projRoot.length)) ∧
    (target.absFlag = true → ¬ List.IsPrefix projRoot (target.comps ++ [tn]) →
      normalizeThumb (FileProcessor.mk target projRoot) (target.child tn) =
        PyPath.mk false [tn]) ∧
    (target.absFlag = false →
      normalizeThumb (FileProcessor.mk target projRoot) (target.child tn) =
        PyPath.mk false [tn]) := by
  refine ⟨?_, ?_, ?_⟩
  · intro habs hpre
    unfold normalizeThumb
    rw [if_pos (by unfold PyPath.child; exact habs)]
    unfold PyPath.relative_to PyPath.child FileProcessor.project_root
    dsimp only
    rw [if_pos (by
      rw [habs]
      simp only [beq_self_eq_true, Bool.true_and]
      exact List.isPrefixOf_iff_prefix.mpr hpre)]
  · intro habs hpre
    unfold normalizeThumb
    rw [if_pos (by unfold PyPath.child; exact habs)]
    unfold PyPath.relative_to PyPath.child FileProcessor.project_root
    dsimp only
    rw [if_neg (by
      rw [habs]
      simp only [beq_self_eq_true, Bool.true_and]
      intro hb
      exact hpre (List.isPrefixOf_iff_prefix.mp hb))]
    rw [show (PyPath.mk target.absFlag (target.comps ++ [tn])).name = tn from
      PyPath.child_name target tn]
  · intro habs
    unfold normalizeThumb
    rw [if_neg (by unfold PyPath.child; rw [habs]; simp)]
    unfold getRelativePath PyPath.relative_to PyPath.child
    dsimp only
    rw [if_pos (by
      rw [habs]
      simp only [beq_self_eq_true, Bool.true_and]
      exact List.isPrefixOf_iff_prefix.mpr (List.prefix_append _ _))]
    rw [List.drop_left]

/-- How the rewriting treats a placeholder asset: always re-rooted at the
project root, yielding the `static/images/...` relative path. -/
theorem normalizeThumb_placeholder (target : PyPath) (projRoot : List String) (nm : String) :
    normalizeThumb (FileProcessor.mk target projRoot)
      (PyPath.mk true (projRoot ++ ["static", "images", nm])) =
      PyPath.mk false ["static", "images", nm] := by
  unfold normalizeThumb
  rw [if_pos rfl]
  unfold PyPath.relative_to FileProcessor.project_root
  dsimp only
  rw [if_pos (by
    simp only [beq_self_eq_true, Bool.true_and]
    exact List.isPrefixOf_iff_prefix.mpr (List.prefix_append _ _))]
  rw [List.drop_left]

/-- The two placeholder paths in `projRoot ++ [...]` shape. -/
theorem placeholder_paths (target : PyPath) (projRoot : List String) :
    (FileProcessor.mk target projRoot).placeholder_day =
      PyPath.mk true (projRoot ++ ["static", "images", "placeholder-day.jpg"]) ∧
    (FileProcessor.mk target projRoot).placeholder_night =
      PyPath.mk true (projRoot ++ ["static", "images", "placeholder-night.jpg"]) := by
  unfold FileProcessor.placeholder_day FileProcessor.placeholder_night
    FileProcessor.project_root PyPath.child
  constructor <;> simp

/-- Scan inversion at the `scanFiles` level (also exposing the directory
snapshot). -/
theorem scanFiles_mem (fp : FileProcessor) (fs : Fs) (f : MediaFile)
    (hf : f ∈ scanFiles fp fs) :
    ∃ entries, fs.listing = some entries ∧ ∃ e ∈ entries, e.isFileFlag = true ∧
      ∃ t sz, determineFileType e.name = some t ∧ e.size = some sz ∧
        f = mkMediaFile fp fs entries e t sz := by
  unfold scanFiles at hf
  cases hl : fs.listing with
  | none => rw [hl] at hf; cases hf
  | some entries =>
    rw [hl] at hf
    exact ⟨entries, rfl, mkScan_mem fp fs entries entries f hf⟩

/-- The thumbnail rewriting on a present file, in closed form. -/
theorem normalizeMedia_some (fp : FileProcessor) (f0 : MediaFile) :
    normalizeMedia fp (some f0) =
      some (MediaFile.mk f0.path f0.type f0.day f0.file_date f0.size
        (match f0.thumbnail_path with
         | none => none
         | some t => some (normalizeThumb fp t))) := by
  cases f0 with
  | mk p t d fd sz th =>
    cases th <;> simp [normalizeMedia]

/-- Any path produced by the thumbnail rewriting is relative. -/
theorem normalizeThumb_relative (fp : FileProcessor) (t : PyPath) :
    (normalizeThumb fp t).absFlag = false := by
  unfold normalizeThumb getRelativePath
  split_ifs with h
  · cases hr : t.relative_to fp.project_root with
    | none => rfl
    | some r =>
      unfold PyPath.relative_to at hr
      split_ifs at hr with h2
      · cases hr; rfl
  · cases hr : t.relative_to fp.target_directory with
    | none => rfl
    | some r =>
      unfold PyPath.relative_to at hr
      split_ifs at hr with h2
      · cases hr; rfl

/-- Thumbnail characterization of one aurora/cloud file after rewriting:
sibling thumbnails become target-relative bare names except when the target
is an absolute path under the project root (then they are re-rooted at the
project root); placeholders become `static/images/...` paths; otherwise no
thumbnail. -/
theorem slot_thumb_char (target : PyPath) (projRoot : List String) (fs : Fs)
    (kind : String) (hkind : kind = "aurora" ∨ kind = "cloud")
    (f0 f : MediaFile)
    (hscan : f0 ∈ scanFiles (FileProcessor.mk target projRoot) fs)
    (htype0 : f0.type = kind)
    (hf : f = MediaFile.mk f0.path f0.type f0.day f0.file_date f0.size
      (match f0.thumbnail_path with
       | none => none
       | some t => some (normalizeThumb (FileProcessor.mk target projRoot) t))) :
    ∃ entries, fs.listing = some entries ∧
      ((entries.any (fun en =>
          en.name == (stemOf f.path.name ++ ".thumbnail.jpg") && en.isFileFlag)) = true →
        (target.absFlag = false →
          f.thumbnail_path =
            some (PyPath.mk false [stemOf f.path.name ++ ".thumbnail.jpg"])) ∧
        (target.absFlag = true →
          List.IsPrefix projRoot (target.comps ++ [stemOf f.path.name ++ ".thumbnail.jpg"]) →
          f.thumbnail_path = some (PyPath.mk false
            ((target.comps ++ [stemOf f.path.name ++ ".thumbnail.jpg"]).drop
              projRoot.length))) ∧
        (target.absFlag = true →
          ¬ List.IsPrefix projRoot
            (target.comps ++ [stemOf f.path.name ++ ".thumbnail.jpg"]) →
          f.thumbnail_path =
            some (PyPath.mk false [stemOf f.path.name ++ ".thumbnail.jpg"]))) ∧
      ((entries.any (fun en =>
          en.name == (stemOf f.path.name ++ ".thumbnail.jpg") && en.isFileFlag)) = false →
        (f.type = "aurora" → fs.placeholderNightOnDisk = true →
          f.thumbnail_path =
            some (PyPath.mk false ["static", "images", "placeholder-night.jpg"])) ∧
        (f.type = "cloud" → fs.placeholderDayOnDisk = true →
          f.thumbnail_path =
            some (PyPath.mk false ["static", "images", "placeholder-day.jpg"])) ∧
        (f.type = "aurora" → fs.placeholderNightOnDisk = false → f.thumbnail_path = none) ∧
        (f.type = "cloud" → fs.placeholderDayOnDisk = false → f.thumbnail_path = none)) := by
  rcases scanFiles_mem _ fs f0 hscan with ⟨entries, hl, e, he, hfl, t, sz, hdft, hsz, hf0⟩
  have ht : kind = t := by
    rw [hf0] at htype0
    exact htype0.symm
  subst ht
  have hnotsnap : (kind == "aurora" || kind == "cloud") = true := by
    rcases hkind with rfl | rfl <;> decide
  have hpathname : f.path.name = e.name := by
    rw [hf]
    show f0.path.name = e.name
    rw [hf0]
    show ((FileProcessor.mk target projRoot).target_directory.child e.name).name = e.name
    exact PyPath.child_name _ _
  have hthumb0 : f0.thumbnail_path =
      (match findThumbnailFile (FileProcessor.mk target projRoot) entries
        ((FileProcessor.mk target projRoot).target_directory.child e.name) with
       | some th => some th
       | none => getPlaceholderPath (FileProcessor.mk target projRoot) fs kind) := by
    rw [hf0]
    show (if (kind == "aurora" || kind == "cloud") = true then _ else none) = _
    rw [if_pos hnotsnap]
  have hthumbf : f.thumbnail_path =
      (match f0.thumbnail_path with
       | none => none
       | some t => some (normalizeThumb (FileProcessor.mk target projRoot) t)) := by
    rw [hf]
  have htn : stemOf f.path.name ++ ".thumbnail.jpg" = stemOf e.name ++ ".thumbnail.jpg" := by
    rw [hpathname]
  refine ⟨entries, hl, ?_, ?_⟩
  · intro hsib
    have hfind : findThumbnailFile (FileProcessor.mk target projRoot) entries
        ((FileProcessor.mk target projRoot).target_directory.child e.name) =
        some (target.child (stemOf e.name ++ ".thumbnail.jpg")) := by
      unfold findThumbnailFile
      rw [PyPath.child_name]
      rw [if_pos (by rw [htn] at hsib; exact hsib)]
    have hthumb : f.thumbnail_path = some (normalizeThumb (FileProcessor.mk target projRoot)
        (target.child (stemOf e.name ++ ".thumbnail.jpg"))) := by
      rw [hthumbf, hthumb0, hfind]
    rcases normalizeThumb_child target projRoot (stemOf e.name ++ ".thumbnail.jpg")
      with ⟨hc1, hc2, hc3⟩
    refine ⟨?_, ?_, ?_⟩
    · intro habs
      rw [hthumb, hc3 habs, htn]
    · intro habs hpre
      rw [htn] at hpre ⊢
      rw [hthumb, hc1 habs hpre]
    · intro habs hpre
      rw [htn] at hpre ⊢
      rw [hthumb, hc2 habs hpre]
  · intro hsib
    have hfind : findThumbnailFile (FileProcessor.mk target projRoot) entries
        ((FileProcessor.mk target projRoot).target_directory.child e.name) = none := by
      unfold findThumbnailFile
      rw [PyPath.child_name]
      rw [if_neg (by rw [htn] at hsib; rw [hsib]; exact fun hh => Bool.false_ne_true hh)]
    have hthumb : f.thumbnail_path =
        (match getPlaceholderPath (FileProcessor.mk target projRoot) fs kind with
         | none => none
         | some t => some (normalizeThumb (FileProcessor.mk target projRoot) t)) := by
      rw [hthumbf, hthumb0, hfind]
    rcases placeholder_paths target projRoot with ⟨hpd, hpn⟩
    refine ⟨?_, ?_, ?_, ?_⟩
    · intro hft hflag
      have hft0 : f0.type = "aurora" := by rw [hf] at hft; exact hft
      have hk : kind = "aurora" := htype0.symm.trans hft0
      subst hk
      have hget : getPlaceholderPath (FileProcessor.mk target projRoot) fs "aurora" =
          some (PyPath.mk true (projRoot ++ ["static", "images", "placeholder-night.jpg"])) := by
        unfold getPlaceholderPath
        rw [if_pos (by decide), if_pos hflag, hpn]
      rw [hthumb, hget]
      show some (normalizeThumb (FileProcessor.mk target projRoot)
          (PyPath.mk true (projRoot ++ ["static", "images", "placeholder-night.jpg"]))) = _
      rw [normalizeThumb_placeholder]
    · intro hft hflag
      have hft0 : f0.type = "cloud" := by rw [hf] at hft; exact hft
      have hk : kind = "cloud" := htype0.symm.trans hft0
      subst hk
      have hget : getPlaceholderPath (FileProcessor.mk target projRoot) fs "cloud" =
          some (PyPath.mk true (projRoot ++ ["static", "images", "placeholder-day.jpg"])) := by
        unfold getPlaceholderPath
        rw [if_neg (by decide), if_pos (by decide), if_pos hflag, hpd]
      rw [hthumb, hget]
      show some (normalizeThumb (FileProcessor.mk target projRoot)
          (PyPath.mk true (projRoot ++ ["static", "images", "placeholder-day.jpg"]))) = _
      rw [normalizeThumb_placeholder]
    · intro hft hflag
      have hft0 : f0.type = "aurora" := by rw [hf] at hft; exact hft
      have hk : kind = "aurora" := htype0.symm.trans hft0
      subst hk
      have hget : getPlaceholderPath (FileProcessor.mk target projRoot) fs "aurora" = none := by
        unfold getPlaceholderPath
        rw [if_pos (by decide), if_neg (by rw [hflag]; exact fun hh => Bool.false_ne_true hh)]
      rw [hthumb, hget]
    · intro hft hflag
      have hft0 : f0.type = "cloud" := by rw [hf] at hft; exact hft
      have hk : kind = "cloud" := htype0.symm.trans hft0
      subst hk
      have hget : getPlaceholderPath (FileProcessor.mk target projRoot) fs "cloud" = none := by
        unfold getPlaceholderPath
        rw [if_neg (by decide), if_pos (by decide),
          if_neg (by rw [hflag]; exact fun hh => Bool.false_ne_true hh)]
      rw [hthumb, hget]

/-- C7 counterexample: with the target directory an absolute path strictly
inside the project root (`/app/media` under `/app`), the sibling thumbnail of
an aurora video ends up expressed relative to the PROJECT ROOT
(`media/AuroraCam_Monday.thumbnail.jpg`), not relative to the target
directory (`AuroraCam_Monday.thumbnail.jpg`) as the claim states. -/
theorem thumbnail_resolution_counterexample :
    (processFiles fpInside fsThumb).1 =
      [DayMedia.mk (DateTime.mk (toordinal 2024 6 10) 0) "Monday"
        (some (MediaFile.mk (PyPath.mk true ["app", "media", "AuroraCam_Monday.mp4"]) "aurora"
          (some "Monday") 100 5
          (some (PyPath.mk false ["media", "AuroraCam_Monday.thumbnail.jpg"]))))
        none none] ∧
    PyPath.mk false ["media", "AuroraCam_Monday.thumbnail.jpg"] ≠
      PyPath.mk false ["AuroraCam_Monday.thumbnail.jpg"] := by
  constructor <;> decide

/-- C7 (amended): for every aurora or cloud file in the output, a sibling
`<stem>.thumbnail.jpg` becomes the thumbnail — expressed relative to the
target directory when the target directory is a relative path or an absolute
path not under the project root, but re-rooted at the project root when the
(absolute) sibling path lies under the project root; with no sibling, the
kind's placeholder (night for aurora, day for cloud) becomes the thumbnail
iff that asset exists, always expressed as `static/images/...` relative to
the project root (the static-asset root); otherwise the thumbnail is absent.
Spaceweather and snapshot files never receive a thumbnail, and every
thumbnail present in the output is a relative path. -/
theorem thumbnail_resolution_amended :
    (∀ (target : PyPath) (projRoot : List String) (fs : Fs),
      ∀ dm ∈ (processFiles (FileProcessor.mk target projRoot) fs).1,
      ∀ f : MediaFile, dm.aurora_video = some f ∨ dm.cloud_video = some f →
      ∃ entries, fs.listing = some entries ∧
        ((entries.any (fun en =>
            en.name == (stemOf f.path.name ++ ".thumbnail.jpg") && en.isFileFlag)) = true →
          (target.absFlag = false →
            f.thumbnail_path =
              some (PyPath.mk false [stemOf f.path.name ++ ".thumbnail.jpg"])) ∧
          (target.absFlag = true →
            List.IsPrefix projRoot
              (target.comps ++ [stemOf f.path.name ++ ".thumbnail.jpg"]) →
            f.thumbnail_path = some (PyPath.mk false
              ((target.comps ++ [stemOf f.path.name ++ ".thumbnail.jpg"]).drop
                projRoot.length))) ∧
          (target.absFlag = true →
            ¬ List.IsPrefix projRoot
              (target.comps ++ [stemOf f.path.name ++ ".thumbnail.jpg"]) →
            f.thumbnail_path =
              some (PyPath.mk false [stemOf f.path.name ++ ".thumbnail.jpg"]))) ∧
        ((entries.any (fun en =>
            en.name == (stemOf f.path.name ++ ".thumbnail.jpg") && en.isFileFlag)) = false →
          (f.type = "aurora" → fs.placeholderNightOnDisk = true →
            f.thumbnail_path =
              some (PyPath.mk false ["static", "images", "placeholder-night.jpg"])) ∧
          (f.type = "cloud" → fs.placeholderDayOnDisk = true →
            f.thumbnail_path =
              some (PyPath.mk false ["static", "images", "placeholder-day.jpg"])) ∧
          (f.type = "aurora" → fs.placeholderNightOnDisk = false →
            f.thumbnail_path = none) ∧
          (f.type = "cloud" → fs.placeholderDayOnDisk = false →
            f.thumbnail_path = none))) ∧
    (∀ (fp : FileProcessor) (fs : Fs), ∀ dm ∈ (processFiles fp fs).1,
      ∀ f : MediaFile, dm.spaceweather_image = some f → f.thumbnail_path = none) ∧
    (∀ (fp : FileProcessor) (fs : Fs) (f : MediaFile),
      (processFiles fp fs).2 = some f → f.thumbnail_path = none) ∧
    (∀ (fp : FileProcessor) (fs : Fs), ∀ dm ∈ (processFiles fp fs).1,
      ∀ (f : MediaFile) (p : PyPath),
      dm.aurora_video = some f ∨ dm.cloud_video = some f ∨ dm.spaceweather_image = some f →
      f.thumbnail_path = some p → p.absFlag = false) ∧
    (processFiles fpOutside fsCloudOnly).1 =
      [DayMedia.mk (DateTime.mk (toordinal 2024 6 11) 0) "Tuesday" none
        (some (MediaFile.mk (PyPath.mk true ["data", "m", "CloudCam_Tuesday.mp4"]) "cloud"
          (some "Tuesday") 100 3
          (some (PyPath.mk false ["static", "images", "placeholder-day.jpg"])))) none] := by
  refine ⟨?_, ?_, ?_, ?_, by decide⟩
  · intro target projRoot fs dm hdm f hslot
    rcases processFiles_day_mem _ fs dm hdm with ⟨d, dm', hmem, rfl⟩
    have hslots := group_slots _ fs.nowRef d dm' hmem
    rcases hslot with h | h
    · have h0 : normalizeMedia (FileProcessor.mk target projRoot) dm'.aurora_video = some f := h
      cases hpre : dm'.aurora_video with
      | none => rw [hpre] at h0; cases h0
      | some f0 =>
        rw [hpre, normalizeMedia_some] at h0
        have hf := (Option.some.inj h0).symm
        rw [hslots.1] at hpre
        rcases List.mem_filter.mp (mem_of_getLast?_eq hpre) with ⟨hscan, hcond⟩
        have hcond' : (f0.type == "aurora") = true ∧ (f0.day == some d) = true := by
          simpa [Bool.and_eq_true] using hcond
        exact slot_thumb_char target projRoot fs "aurora" (Or.inl rfl) f0 f hscan
          (eq_of_beq hcond'.1) hf
    · have h0 : normalizeMedia (FileProcessor.mk target projRoot) dm'.cloud_video = some f := h
      cases hpre : dm'.cloud_video with
      | none => rw [hpre] at h0; cases h0
      | some f0 =>
        rw [hpre, normalizeMedia_some] at h0
        have hf := (Option.some.inj h0).symm
        rw [hslots.2.1] at hpre
        rcases List.mem_filter.mp (mem_of_getLast?_eq hpre) with ⟨hscan, hcond⟩
        have hcond' : (f0.type == "cloud") = true ∧ (f0.day == some d) = true := by
          simpa [Bool.and_eq_true] using hcond
        exact slot_thumb_char target projRoot fs "cloud" (Or.inr rfl) f0 f hscan
          (eq_of_beq hcond'.1) hf
  · intro fp fs dm hdm f h
    rcases processFiles_day_mem fp fs dm hdm with ⟨d, dm', hmem, rfl⟩
    have hslots := group_slots _ fs.nowRef d dm' hmem
    have h0 : normalizeMedia fp dm'.spaceweather_image = some f := h
    cases hpre : dm'.spaceweather_image with
    | none => rw [hpre] at h0; cases h0
    | some f0 =>
      rw [hpre, normalizeMedia_some] at h0
      have hf := (Option.some.inj h0).symm
      rw [hslots.2.2] at hpre
      rcases List.mem_filter.mp (mem_of_getLast?_eq hpre) with ⟨hscan, hcond⟩
      have hcond' : (f0.type == "spaceweather") = true ∧ (f0.day == some d) = true := by
        simpa [Bool.and_eq_true] using hcond
      rcases scanFiles_wf fp fs f0 hscan with ⟨-, -, hsw, -⟩
      have hthumb0 : f0.thumbnail_path = none := hsw (eq_of_beq hcond'.1)
      rw [hf]
      show (match f0.thumbnail_path with
        | none => none
        | some t => some (normalizeThumb fp t)) = none
      rw [hthumb0]
  · intro fp fs f h
    have ha : (processFiles fp fs).2 =
        ((scanFiles fp fs).filter (fun g => g.type == "snapshot")).getLast? := by
      simp only [processFiles]
      by_cases hempty : (scanFiles fp fs).isEmpty = true
      · rw [if_pos hempty]
        have hscan : scanFiles fp fs = [] := by simpa using hempty
        rw [hscan]
        rfl
      · rw [if_neg hempty]
        dsimp only
        rw [groupFilesByDay_eq]
    rw [ha] at h
    rcases List.mem_filter.mp (mem_of_getLast?_eq h) with ⟨hmem, hsnap⟩
    rcases scanFiles_wf fp fs f hmem with ⟨-, hsnapprop, -, -⟩
    exact (hsnapprop (eq_of_beq hsnap)).2
  · intro fp fs dm hdm f p hslot hp
    rcases processFiles_day_mem fp fs dm hdm with ⟨d, dm', hmem, rfl⟩
    have hnm : ∀ m : Option MediaFile, normalizeMedia fp m = some f →
        f.thumbnail_path = some p → p.absFlag = false := by
      intro m hm hp'
      cases m with
      | none => cases hm
      | some f0 =>
        rw [normalizeMedia_some] at hm
        have hf := (Option.some.inj hm).symm
        rw [hf] at hp'
        revert hp'
        show (match f0.thumbnail_path with
          | none => none
          | some t => some (normalizeThumb fp t)) = some p → p.absFlag = false
        cases f0.thumbnail_path with
        | none => intro hc; cases hc
        | some t0 =>
          intro hc
          have : normalizeThumb fp t0 = p := Option.some.inj hc
          rw [← this]
          exact normalizeThumb_relative fp t0
    rcases hslot with h | h | h
    · exact hnm dm'.aurora_video h hp
    · exact hnm dm'.cloud_video h hp
    · exact hnm dm'.spaceweather_image h hp

/-- C7 witness: the concrete cloud video with no sibling thumbnail and an
existing day placeholder, instantiating the placeholder branch of the
characterization. -/
theorem thumbnail_resolution_amended_witness :
    (MediaFile.mk (PyPath.mk true ["data", "m", "CloudCam_Tuesday.mp4"]) "cloud"
      (some "Tuesday") 100 3
      (some (PyPath.mk false ["static", "images", "placeholder-day.jpg"]))).thumbnail_path =
      some (PyPath.mk false ["static", "images", "placeholder-day.jpg"]) := by
  obtain ⟨entries, hl, -, hplace⟩ :=
    thumbnail_resolution_amended.1 (PyPath.mk true ["data", "m"]) ["app"] fsCloudOnly
      (DayMedia.mk (DateTime.mk (toordinal 2024 6 11) 0) "Tuesday" none
        (some (MediaFile.mk (PyPath.mk true ["data", "m", "CloudCam_Tuesday.mp4"]) "cloud"
          (some "Tuesday") 100 3
          (some (PyPath.mk false ["static", "images", "placeholder-day.jpg"])))) none)
      (by decide)
      (MediaFile.mk (PyPath.mk true ["data", "m", "CloudCam_Tuesday.mp4"]) "cloud"
        (some "Tuesday") 100 3
        (some (PyPath.mk false ["static", "images", "placeholder-day.jpg"])))
      (Or.inr (by decide))
  have hent : entries = [entCloud] := by
    have h2 : some [entCloud] = some entries := by rw [← hl]; rfl
    exact (Option.some.inj h2).symm
  subst hent
  exact (hplace (by decide)).2.1 (by decide) (by decide)
